import Mathlib

/-!
Verification of the corm SQL statement builder (github.com/nikola-chen/corm).

This file shallowly embeds the statement-compilation core of the repository:
the clause algebra (`clause/expr.go`), the placeholder compiler
(`builder/arg_builder.go`), the identifier validators (`builder/internal.go`),
and the UPDATE/DELETE/INSERT builders (`builder/select_exec.go`,
`builder/delete.go`, `builder/insert.go`, `builder/where.go`, and the legacy
`builder/update.go` revision).

Modelling conventions:
  * Go strings (byte strings scanned byte-wise) are modelled as `List Char`;
    every string the repository scans in the relevant code paths is ASCII,
    so byte positions and `Char` positions coincide.
  * Go `any` values carried as SQL arguments are modelled by `GoVal`:
    a non-sequence scalar, a byte sequence (`[]byte`, which the code treats
    as a scalar), or a non-byte sequence (any other slice).
  * Fallible Go functions returning `error` are modelled with
    `Except String`, carrying the exact error message of the source.
  * The scanners of `arg_builder.go` advance a cursor by one or more bytes
    per loop iteration; they are modelled with an explicit fuel parameter
    (one unit per loop iteration).  Since every iteration consumes at least
    one byte, fuel equal to the input length always suffices; the wrappers
    pass exactly that, and fuel-irrelevance lemmas are proved below.
-/

namespace Corm

/-- A Go argument value, as far as the builder can observe it through
`reflect`: a non-sequence scalar (identified by a number so that distinct
scalars can be told apart), a byte sequence (`[]byte`), or a non-byte
sequence with its elements. -/
inductive GoVal where
  | atom : Int → GoVal
  | bytes : List Nat → GoVal
  | slice : List GoVal → GoVal

/-- `clause.Expr`: a SQL fragment with its positional arguments
(`clause/expr.go`). -/
structure Expr where
  sql : List Char
  args : List GoVal

/-- The two dialects the repository registers (`dialect/dialect.go` with
`dialect/postgres.go` and the mysql dialect file): `mysql` and `postgres`
(driver name `postgresql` maps to the same postgres dialect value). -/
inductive Dialect where
  | mysql
  | postgres
deriving DecidableEq

/-- `strconv.Itoa` for the naturals the builder uses. -/
def itoa (n : Nat) : List Char :=
  (Nat.repr n).data

/-- `Dialect.Name`. -/
def Dialect.Name : Dialect → String
  | .mysql => "mysql"
  | .postgres => "postgres"

/-- `Dialect.Placeholder`: `"?"` for mysql, `"$n"` for postgres. -/
def Dialect.Placeholder : Dialect → Nat → List Char
  | .mysql, _ => ['?']
  | .postgres, n => '$' :: itoa n

/-- The backtick character (ASCII 96). -/
def btick : Char := Char.ofNat 96

/-- `Dialect.QuoteIdent`: backtick quoting (doubling embedded backticks) for
mysql, double-quote quoting (doubling embedded quotes) for postgres. -/
def Dialect.QuoteIdent : Dialect → List Char → List Char
  | .mysql, ident =>
    if ident = [] then [btick, btick]
    else btick :: (ident.flatMap fun c => if c = btick then [btick, btick] else [c]) ++ [btick]
  | .postgres, ident =>
    if ident = [] then ['"', '"']
    else '"' :: (ident.flatMap fun c => if c = '"' then ['"', '"'] else [c]) ++ ['"']

/-- `Dialect.SupportsReturning`. -/
def Dialect.SupportsReturning : Dialect → Bool
  | .mysql => false
  | .postgres => true

/-- ASCII whitespace, as recognised by `strings.TrimSpace` on the ASCII
inputs the claims exercise. -/
def isSpaceChar (c : Char) : Bool :=
  c = ' ' ∨ c = '\t' ∨ c = '\n' ∨ c = '\r'

/-- `strings.TrimSpace`, for ASCII input. -/
def trimSpace (s : List Char) : List Char :=
  ((s.dropWhile isSpaceChar).reverse.dropWhile isSpaceChar).reverse

/-! ## Clause algebra (`clause/expr.go`) -/

/-- The constant tautologically-false fragment text emitted by `In` for an
empty value list. -/
def oneEqZero : List Char := ['1', '=', '0']

/-- `clause.Raw`. -/
def Raw (sql : List Char) (args : List GoVal) : Expr :=
  ⟨sql, args⟩

/-- `clause.Eq`: `column = ?` with one argument. -/
def Eq (column : List Char) (value : GoVal) : Expr :=
  ⟨column ++ (" = ?").data, [value]⟩

/-- The `?`-list written by `buildIn`'s general loop: `?` for the first
element, then `, ?` for each further element. -/
def qmarks : Nat → List Char
  | 0 => []
  | 1 => ['?']
  | n + 2 => qmarks (n + 1) ++ [',', ' ', '?']

/-- `clause.buildIn`: renders `<column> IN (?, ?, ...)`.  The source
special-cases argument counts 1–5 with literal strings and uses a loop
otherwise; both appear here verbatim. -/
def buildIn (column : List Char) (args : List GoVal) : Expr :=
  let n := args.length
  if n = 1 then ⟨column ++ (" IN (?)").data, args⟩
  else if n = 2 then ⟨column ++ (" IN (?, ?)").data, args⟩
  else if n = 3 then ⟨column ++ (" IN (?, ?, ?)").data, args⟩
  else if n = 4 then ⟨column ++ (" IN (?, ?, ?, ?)").data, args⟩
  else if n = 5 then ⟨column ++ (" IN (?, ?, ?, ?, ?)").data, args⟩
  else ⟨column ++ (" IN (").data ++ qmarks n ++ [')'], args⟩

/-- One-level flattening of `In`'s argument list: a non-byte sequence
contributes its elements, anything else (scalars and byte sequences)
contributes itself.  This is the `reflect`-based loop of `clause.In`
(`expr.go` lines 177–187); the typed fast cases for `[]any`, `[]string`,
`[]int`, ... behave identically and are subsumed by `GoVal.slice`. -/
def flattenOne (values : List GoVal) : List GoVal :=
  values.flatMap fun v =>
    match v with
    | .slice es => es
    | v => [v]

/-- `clause.In`.  The source first handles the empty call, then a fast path
for a single sequence argument (every typed case and the `reflect` default
behave the same way: empty sequence gives `1=0`, otherwise the elements go
to `buildIn`; a single `[]byte` falls through to the general loop), then the
general one-level flattening loop. -/
def In (column : List Char) (values : List GoVal) : Expr :=
  if values.isEmpty then ⟨oneEqZero, []⟩
  else
    match values with
    | [GoVal.slice s] =>
      if s.isEmpty then ⟨oneEqZero, []⟩ else buildIn column s
    | _ =>
      let flattened := flattenOne values
      if flattened.isEmpty then ⟨oneEqZero, []⟩ else buildIn column flattened

/-- `clause.join`: drops fragments whose text is empty after trimming,
parenthesizes the rest, joins them with `" <op> "` and concatenates their
argument lists; returns the empty fragment if nothing remains.  (The source
makes two passes, one to count the surviving fragments and one to collect
them; a single `filter` captures both.) -/
def join (op : List Char) (exprs : List Expr) : Expr :=
  if exprs.isEmpty then ⟨[], []⟩
  else
    let kept := exprs.filter fun e => ¬ trimSpace e.sql = []
    if kept.isEmpty then ⟨[], []⟩
    else ⟨List.intercalate (' ' :: op ++ [' ']) (kept.map fun e => '(' :: e.sql ++ [')']),
          kept.flatMap fun e => e.args⟩

/-- `clause.And`. -/
def And (exprs : List Expr) : Expr :=
  join ("AND").data exprs

/-- `clause.Or`. -/
def Or (exprs : List Expr) : Expr :=
  join ("OR").data exprs

/-! ## Placeholder compiler (`builder/arg_builder.go`) -/

/-- Characters allowed inside a dollar-quote tag (`[a-zA-Z0-9_]`). -/
def isTagChar (c : Char) : Bool :=
  ('a' ≤ c ∧ c ≤ 'z') ∨ ('A' ≤ c ∧ c ≤ 'Z') ∨ ('0' ≤ c ∧ c ≤ '9') ∨ c = '_'

/-- The scanner mode of `countQuestionPlaceholders` and
`rewritePlaceholdersCommon`.  The source tracks four booleans plus a
`dollarTag` string, with `dollarTag == ""` meaning "not inside a dollar
quote"; here the live tag is stored as a head character plus a tail so the
represented tag is never empty, exactly as in every reachable source
state (tags always have the form `$...$`). -/
inductive ScanState where
  | normal
  | lineComment
  | blockComment
  | singleQuote
  | doubleQuote
  | dollar (c : Char) (cs : List Char)
deriving DecidableEq

/-- One iteration of the byte scanner shared by `countQuestionPlaceholders`
(lines 150–246) and the slow path of `rewritePlaceholdersCommon` (lines
475–608) — the two loops of the source walk the input with the *same*
transition table, written out twice; it is factored here so the two
embeddings provably move in lock step.  Given the mode and the (nonempty)
remaining input, it returns the next mode, how many placeholder markers
this iteration counted (`0` or `1`), the consumed text (which both loops
emit verbatim, except that the rewriter replaces a counted `?`), and the
remaining input.  `esc` is the backslash-escape flag (`allowBackslashEscape`
in the counter, `isMySQL` in the rewriter). -/
def scanStep (esc : Bool) : ScanState → List Char → ScanState × Nat × List Char × List Char
  | _, [] => (.normal, 0, [], [])
  | .lineComment, c :: s =>
    (if c = '\n' then .normal else .lineComment, 0, [c], s)
  | .blockComment, '*' :: '/' :: s => (.normal, 0, ['*', '/'], s)
  | .blockComment, c :: s => (.blockComment, 0, [c], s)
  | .dollar c cs, d :: s =>
    if (c :: cs).isPrefixOf (d :: s) then (.normal, 0, c :: cs, (d :: s).drop (cs.length + 1))
    else (.dollar c cs, 0, [d], s)
  | .singleQuote, c :: s =>
    if esc ∧ c = '\\' then
      match s with
      | [] => (.singleQuote, 0, [c], [])
      | d :: s' => (.singleQuote, 0, [c, d], s')
    else if c = '\'' then
      match s with
      | '\'' :: s' => (.singleQuote, 0, [c, '\''], s')
      | _ => (.normal, 0, [c], s)
    else (.singleQuote, 0, [c], s)
  | .doubleQuote, c :: s =>
    (if c = '"' then .normal else .doubleQuote, 0, [c], s)
  | .normal, '-' :: '-' :: s => (.lineComment, 0, ['-', '-'], s)
  | .normal, '/' :: '*' :: s => (.blockComment, 0, ['/', '*'], s)
  | .normal, '\'' :: s => (.singleQuote, 0, ['\''], s)
  | .normal, '"' :: s => (.doubleQuote, 0, ['"'], s)
  | .normal, '$' :: s =>
    match s.dropWhile isTagChar with
    | '$' :: s' =>
      (.dollar '$' (s.takeWhile isTagChar ++ ['$']), 0, '$' :: s.takeWhile isTagChar ++ ['$'], s')
    | _ => (.normal, 0, ['$'], s)
  | .normal, '?' :: s => (.normal, 1, ['?'], s)
  | .normal, c :: s => (.normal, 0, [c], s)

/-- Loop of `countQuestionPlaceholders` (`arg_builder.go` lines 150–246):
run the scanner, totalling the markers counted in normal mode.  `fuel`
counts loop iterations; every iteration consumes at least one character,
so `fuel = input length` always suffices (the wrapper passes exactly
that). -/
def countAux (esc : Bool) : Nat → ScanState → List Char → Nat
  | 0, _, _ => 0
  | _ + 1, _, [] => 0
  | fuel + 1, st, c :: s =>
    let step := scanStep esc st (c :: s)
    countAux esc fuel step.1 step.2.2.2 + step.2.1

/-- `countQuestionPlaceholders`: the number of placeholder markers in
normal mode (outside quoted literals, comments and dollar-quoted regions).
`allowBackslashEscape` is passed as `dialect name == "mysql"`. -/
def countQuestionPlaceholders (sql : List Char) (allowBackslashEscape : Bool) : Nat :=
  if sql.contains '?' then countAux allowBackslashEscape sql.length .normal sql else 0

/-- Prepend already-emitted output to the result of scanning the rest
(models the sequential writes into the output `strings.Builder`). -/
def consOut (pre : List Char) : Except String (List Char × Nat) → Except String (List Char × Nat)
  | .error e => .error e
  | .ok (out, next) => .ok (pre ++ out, next)

/-- `arg_builder.go` line 597. -/
def errJsonbArray : String :=
  "corm: postgres jsonb operator '?|/?&' conflicts with placeholder '?', use jsonb_exists_any/jsonb_exists_all"

/-- `arg_builder.go` line 599. -/
def errJsonbExists : String :=
  "corm: postgres jsonb operator '?' conflicts with placeholder '?', use jsonb_exists"

/-- The jsonb-operator adjacency check of `rewritePlaceholdersCommon`
(lines 584–602): after a normal-mode `?`, skip whitespace; `|` or `&`
gives the array-operator error, a quote gives the existence-operator
error. -/
def jsonbConflictError (rest : List Char) : Option String :=
  match rest.dropWhile isSpaceChar with
  | '|' :: _ => some errJsonbArray
  | '&' :: _ => some errJsonbArray
  | '\'' :: _ => some errJsonbExists
  | '"' :: _ => some errJsonbExists
  | _ => none

/-- Loop of `rewritePlaceholdersCommon`'s character-by-character path
(`arg_builder.go` lines 475–608): run the scanner, emitting the consumed
text verbatim, except that a marker counted in normal mode is (for
`isPostgres`, after the jsonb adjacency check) replaced by
`$<nextIndex>`.  In single-quote mode the backslash handling is enabled
exactly when `isMySQL = !isPostgres`. -/
def rewriteCommonAux (isPostgres : Bool) : Nat → ScanState → Nat → List Char →
    Except String (List Char × Nat)
  | 0, _, next, _ => .ok ([], next)
  | _ + 1, _, next, [] => .ok ([], next)
  | fuel + 1, st, next, c :: s =>
    let step := scanStep (!isPostgres) st (c :: s)
    if step.2.1 = 1 then
      if isPostgres then
        match jsonbConflictError step.2.2.2 with
        | some e => .error e
        | none =>
          consOut ('$' :: itoa next) (rewriteCommonAux isPostgres fuel step.1 (next + 1) step.2.2.2)
      else
        consOut ('$' :: itoa next) (rewriteCommonAux isPostgres fuel step.1 (next + 1) step.2.2.2)
    else consOut step.2.2.1 (rewriteCommonAux isPostgres fuel step.1 next step.2.2.2)

/-- The "simple input" test of `rewritePlaceholdersCommon` (lines 429–436):
no quote, comment-start or dollar character anywhere. -/
def isSimpleSQL (sql : List Char) : Bool :=
  ¬ sql.any fun c => c = '\'' ∨ c = '"' ∨ c = '-' ∨ c = '/' ∨ c = '$'

/-- Fast-path rewriting (lines 438–458): every `?` becomes `$N`, nothing is
checked. -/
def simpleRewrite : List Char → Nat → List Char × Nat
  | [], next => ([], next)
  | '?' :: s, next =>
    let r := simpleRewrite s (next + 1)
    ('$' :: itoa next ++ r.1, r.2)
  | c :: s, next =>
    let r := simpleRewrite s next
    (c :: r.1, r.2)

/-- `rewritePlaceholdersCommon` (`arg_builder.go` lines 423–611). -/
def rewritePlaceholdersCommon (sql : List Char) (startIndex : Nat) (isPostgres : Bool) :
    Except String (List Char × Nat) :=
  if ¬ sql.contains '?' ∧ ¬ isPostgres then .ok (sql, startIndex)
  else if isSimpleSQL sql ∧ sql.contains '?' then .ok (simpleRewrite sql startIndex)
  else rewriteCommonAux isPostgres sql.length .normal startIndex sql

/-- `rewritePostgresQuestionPlaceholders` (lines 613–615): delegates to the
common rewriter with `isPostgres = true`; its `allowBackslashEscape`
parameter is ignored by the source. -/
def rewritePostgresQuestionPlaceholders (sql : List Char) (startIndex : Nat)
    (_allowBackslashEscape : Bool) : Except String (List Char × Nat) :=
  rewritePlaceholdersCommon sql startIndex true

/-- Prepend already-emitted output (never-failing variant, for
`rewriteQuestionPlaceholders`). -/
def consPair (pre : List Char) (r : List Char × Nat) : List Char × Nat :=
  (pre ++ r.1, r.2)

/-- Loop of `rewriteQuestionPlaceholders` (lines 303–418): like
`rewriteCommonAux` but emitting `placeholder n` for each normal-mode
marker and with no operator check; backslash handling in single-quote mode
follows `allowBackslashEscape`. -/
def rewriteQPAux (placeholder : Nat → List Char) (esc : Bool) :
    Nat → ScanState → Nat → List Char → List Char × Nat
  | 0, _, next, _ => ([], next)
  | _ + 1, _, next, [] => ([], next)
  | fuel + 1, st, next, c :: s =>
    let step := scanStep esc st (c :: s)
    if step.2.1 = 1 then
      consPair (placeholder next) (rewriteQPAux placeholder esc fuel step.1 (next + 1) step.2.2.2)
    else consPair step.2.2.1 (rewriteQPAux placeholder esc fuel step.1 next step.2.2.2)

/-- Fast-path loop of `rewriteQuestionPlaceholders` (lines 265–288). -/
def simpleRewriteQP (placeholder : Nat → List Char) : List Char → Nat → List Char × Nat
  | [], next => ([], next)
  | '?' :: s, next =>
    let r := simpleRewriteQP placeholder s (next + 1)
    (placeholder next ++ r.1, r.2)
  | c :: s, next =>
    let r := simpleRewriteQP placeholder s next
    (c :: r.1, r.2)

/-- `rewriteQuestionPlaceholders` (lines 250–421): used by `appendExpr`
for dialects that neither reuse `?` nor are postgres (none of the
registered dialects reach it; embedded for faithfulness of `appendExpr`).
It never fails. -/
def rewriteQuestionPlaceholders (sql : List Char) (startIndex : Nat)
    (placeholder : Nat → List Char) (allowBackslashEscape : Bool) : List Char × Nat :=
  if ¬ sql.contains '?' then (sql, startIndex)
  else if isSimpleSQL sql then
    if sql.count '?' = 0 then (sql, startIndex)
    else simpleRewriteQP placeholder sql startIndex
  else rewriteQPAux placeholder allowBackslashEscape sql.length .normal startIndex sql

/-! ## The argument builder (`builder/arg_builder.go` lines 14–134) -/

/-- `maxSQLLength`: 1MB cap on accumulated statement text. -/
def maxSQLLength : Nat := 1024 * 1024

/-- `argBuilder`: dialect, running placeholder index, accumulated arguments,
and the accumulated statement text (the `strings.Builder` the source stores
a pointer to). -/
structure ArgBuilderState where
  d : Dialect
  idx : Nat
  args : List GoVal
  buf : List Char

/-- `newArgBuilder` (with an empty output buffer). -/
def newArgBuilder (d : Dialect) : ArgBuilderState :=
  ⟨d, 1, [], []⟩

/-- `usesQuestionPlaceholders`: true iff `d.Placeholder(1) == "?"`. -/
def usesQuestionPlaceholders (a : ArgBuilderState) : Bool :=
  a.d.Placeholder 1 = ['?']

/-- `argBuilder.add`: record one argument and return the placeholder text to
write. -/
def ArgBuilderState.add (a : ArgBuilderState) (v : GoVal) : ArgBuilderState × List Char :=
  if usesQuestionPlaceholders a then
    ({ a with args := a.args ++ [v], idx := a.idx + 1 }, ['?'])
  else
    ({ a with args := a.args ++ [v], idx := a.idx + 1 }, a.d.Placeholder a.idx)

/-- `arg_builder.go` lines 83/112/128. -/
def errTooLong : String := "corm: SQL statement exceeds maximum length of 1MB"

/-- `arg_builder.go` line 90. -/
def errMissingPlaceholders : String := "corm: missing placeholders for args"

/-- `arg_builder.go` lines 95/108/124. -/
def errMismatch (expected got : Nat) : String :=
  "corm: placeholder count mismatch: expected " ++ Nat.repr expected ++ ", got " ++ Nat.repr got

/-- The one-leading-space strip at the top of `appendExpr` (lines 74–77). -/
def stripLeadingSpace : List Char → List Char
  | ' ' :: rest => rest
  | s => s

/-- `argBuilder.appendExpr` (`arg_builder.go` lines 73–134): strips one
leading space, accepts an empty fragment unchanged, enforces the 1MB cap,
writes arg-less fragments verbatim, and otherwise validates the
placeholder count per dialect, rewriting for numbered dialects. -/
def appendExpr (a : ArgBuilderState) (e : Expr) : Except String ArgBuilderState :=
  let sql := stripLeadingSpace e.sql
  if sql.isEmpty then .ok a
  else if a.buf.length + sql.length > maxSQLLength then .error errTooLong
  else if e.args.isEmpty then .ok { a with buf := a.buf ++ sql }
  else if ¬ sql.contains '?' then .error errMissingPlaceholders
  else
    let expected := e.args.length
    if usesQuestionPlaceholders a then
      let count := countQuestionPlaceholders sql (a.d.Name = "mysql")
      if count ≠ expected then .error (errMismatch expected count)
      else .ok { a with buf := a.buf ++ sql, args := a.args ++ e.args, idx := a.idx + expected }
    else if a.d.Name = "postgres" then
      match rewritePostgresQuestionPlaceholders sql a.idx false with
      | .error msg => .error msg
      | .ok (rewritten, next) =>
        if next - a.idx ≠ expected then .error (errMismatch expected (next - a.idx))
        else if a.buf.length + rewritten.length > maxSQLLength then .error errTooLong
        else .ok { a with buf := a.buf ++ rewritten, args := a.args ++ e.args, idx := next }
    else
      let r := rewriteQuestionPlaceholders sql a.idx a.d.Placeholder (a.d.Name = "mysql")
      if r.2 - a.idx ≠ expected then .error (errMismatch expected (r.2 - a.idx))
      else if a.buf.length + r.1.length > maxSQLLength then .error errTooLong
      else .ok { a with buf := a.buf ++ r.1, args := a.args ++ e.args, idx := r.2 }

/-! ## Identifier validation (`builder/internal.go` and the legacy
`quoteMaybe` helper) -/

/-- `isASCIILetter` (`internal.go` lines 68–70). -/
def isASCIILetter (c : Char) : Bool :=
  ('a' ≤ c ∧ c ≤ 'z') ∨ ('A' ≤ c ∧ c ≤ 'Z')

/-- `isASCIIDigit` (`internal.go` lines 73–75). -/
def isASCIIDigit (c : Char) : Bool :=
  '0' ≤ c ∧ c ≤ '9'

/-- `isSimpleIdent` (`internal.go` lines 38–65), for the ASCII identifiers
every claim exercises: first character letter or underscore, the rest
letters, digits or underscores.  (The source's unicode fallback for bytes
≥ 0x80 accepts further letters; no claim involves non-ASCII identifiers.) -/
def isSimpleIdent (s : List Char) : Bool :=
  match s with
  | [] => false
  | c :: rest =>
    (c = '_' ∨ isASCIILetter c) ∧
      rest.all fun c => c = '_' ∨ isASCIILetter c ∨ isASCIIDigit c

/-- The character denylist of `quoteIdentWithStar` (`internal.go` line 119):
space, parens, arithmetic and comparison operators, comma, percent, bang,
pipe, ampersand, caret, tilde, question mark, colon, semicolon, double
quote and backtick. -/
def identDenylist : List Char := (" ()+-/*,%<>=!|&^~?:;\"").data ++ [btick]

/-- The character denylist of `quoteColumnStrict` (`internal.go` line 184). -/
def columnDenylist : List Char := (" ()+-/*,%<>=!|&^~?:;").data

/-- `quoteIdentStrict` = `quoteIdentWithStar` with `allowStar = false`
(`internal.go` lines 102–160): trim, reject the empty identifier and any
denylisted character, quote a dot-free simple identifier directly,
otherwise quote each (necessarily nonempty and simple) `.`-separated part
and rejoin with `.`.  The source's manual split loop is rendered with
`List.splitOn`.  (The star-allowing select-column variant is exercised by
no claim and is not modelled.) -/
def quoteIdentStrict (d : Dialect) (ident : List Char) : Option (List Char) :=
  let ident := trimSpace ident
  if ident.isEmpty then none
  else if ident.any (fun c => c ∈ identDenylist) then none
  else if ¬ ident.contains '.' then
    if isSimpleIdent ident then some (d.QuoteIdent ident) else none
  else
    let parts := ident.splitOn '.'
    if parts.any (fun p => p.isEmpty ∨ ¬ isSimpleIdent p) then none
    else some (List.intercalate ['.'] (parts.map fun p => d.QuoteIdent p))

/-- `quoteColumnStrict` (`internal.go` lines 176–194). -/
def quoteColumnStrict (d : Dialect) (column : List Char) : Option (List Char) :=
  let column := trimSpace column
  if column.isEmpty ∨ column = ['*'] ∨ column.contains '.' then none
  else if column.any (fun c => c ∈ columnDenylist) then none
  else if column.contains '"' ∨ column.contains btick then none
  else if ¬ isSimpleIdent column then none
  else some (d.QuoteIdent column)

/-- The legacy `quoteMaybe` helper used by the legacy `UpdateBuilder.SQL`:
best-effort quoting that returns the raw identifier unchanged whenever it
does not look like a (possibly dotted, possibly `*`-segmented) simple
identifier.  The source's part-by-part loop (abort with the raw input on
the first bad part) is rendered with an `any` check over the parts. -/
def quoteMaybe (d : Dialect) (ident : List Char) : List Char :=
  let ident := trimSpace ident
  if ident.isEmpty then ident
  else if ident = ['*'] then ['*']
  else if ident.any (fun c => c ∈ columnDenylist) then ident
  else if ident.contains '"' ∨ ident.contains btick then ident
  else
    let parts := (ident.splitOn '.').map trimSpace
    if parts.any (fun p => ¬ p = ['*'] ∧ ¬ isSimpleIdent p) then ident
    else List.intercalate ['.'] (parts.map fun p => if p = ['*'] then ['*'] else d.QuoteIdent p)

/-! ## WHERE builder (`builder/where.go`) -/

/-- A WHERE item.  The source also has a subquery item kind
(`whereSubquery`, rendering `column op (subquery)`); no claim exercises it
(every claim's WHERE list is empty or built from plain expressions), so
only the expression kind (`whereExpr`) is modelled. -/
structure WhereItem where
  expr : Expr

/-- `whereBuilder` (`where.go` lines 38–42). -/
structure WhereBuilder where
  d : Dialect
  items : List WhereItem
  err : Option String

/-- `whereBuilder.WhereEq` (`where.go` lines 81–94). -/
def WhereBuilder.WhereEq (wb : WhereBuilder) (column : List Char) (value : GoVal) :
    WhereBuilder :=
  if wb.err.isSome then wb
  else
    match quoteIdentStrict wb.d column with
    | none => { wb with err := some "corm: invalid column identifier" }
    | some col => { wb with items := wb.items ++ [⟨Eq col value⟩] }

/-- First value bound to `k` (total variant; callers only use keys known to
be present, as a Go map lookup of an existing key). -/
def lookupOpt (l : List (List Char × GoVal)) (k : List Char) : Option GoVal :=
  match l with
  | [] => none
  | (k', v) :: rest => if k' = k then some v else lookupOpt rest k

/-- Go map indexing `values[k]` for a key `k` drawn from the map's own key
set (the default is never reached). -/
def lookupVal (l : List (List Char × GoVal)) (k : List Char) : GoVal :=
  (lookupOpt l k).getD (GoVal.atom 0)

/-- `sort.Strings`: sorting of the extracted key list.  (The source uses
the standard library's string sort; any correct sort yields the same,
uniquely determined, ordered list.) -/
def sortStrings (keys : List (List Char)) : List (List Char) :=
  keys.insertionSort (· ≤ ·)

/-- Loop of `whereBuilder.WhereMap` over the sorted keys (`where.go` lines
133–139). -/
def whereMapLoop : WhereBuilder → List (List Char) → List (List Char × GoVal) → WhereBuilder
  | wb, [], _ => wb
  | wb, k :: ks, conditions =>
    match quoteColumnStrict wb.d k with
    | none => { wb with err := some "corm: invalid column identifier" }
    | some _ => whereMapLoop (wb.WhereEq k (lookupVal conditions k)) ks conditions

/-- `whereBuilder.WhereMap` (`where.go` lines 123–140): extract the map's
keys, sort them, then add one `column = ?` condition per key in sorted
order.  The `conditions` argument lists the map's entries in Go's
(unspecified) iteration order. -/
def WhereBuilder.WhereMap (wb : WhereBuilder) (conditions : List (List Char × GoVal)) :
    WhereBuilder :=
  if wb.err.isSome then wb
  else whereMapLoop wb (sortStrings (conditions.map fun kv => kv.1)) conditions

/-- Loop of `whereBuilder.appendWhere` over the items (`where.go` lines
187–227), restricted to expression items; threads the argument-builder
state (whose `buf` is the shared output buffer) and the count of written
groups. -/
def appendWhereLoop : ArgBuilderState → Nat → List WhereItem →
    Except String (ArgBuilderState × Nat)
  | ab, wrote, [] => .ok (ab, wrote)
  | ab, wrote, ⟨e⟩ :: rest =>
    if trimSpace e.sql = [] then appendWhereLoop ab wrote rest
    else
      let ab := if wrote > 0 then { ab with buf := ab.buf ++ (" AND ").data } else ab
      let ab := { ab with buf := ab.buf ++ ['('] }
      match appendExpr ab e with
      | .error msg => .error msg
      | .ok ab => appendWhereLoop { ab with buf := ab.buf ++ [')'] } (wrote + 1) rest

/-- `whereBuilder.appendWhere` (`where.go` lines 182–232): nothing for an
empty item list; otherwise writes `" WHERE "` and the parenthesized items
joined by `" AND "`, failing if every item turned out to be empty text. -/
def WhereBuilder.appendWhere (wb : WhereBuilder) (ab : ArgBuilderState) :
    Except String ArgBuilderState :=
  if wb.items.isEmpty then .ok ab
  else
    match appendWhereLoop { ab with buf := ab.buf ++ (" WHERE ").data } 0 wb.items with
    | .error msg => .error msg
    | .ok (ab, wrote) =>
      if wrote = 0 then .error "corm: all WHERE expressions are empty" else .ok ab

/-! ## UPDATE builder (`builder/select_exec.go`, current revision) -/

/-- A SET item's value: a plain value, or a `clause.Expr` as produced by
`Increment`/`Decrement` (detected by the source with a type assertion). -/
inductive SetVal where
  | val (v : GoVal)
  | expr (e : Expr)

/-- `setItem`. -/
structure SetItem where
  column : List Char
  value : SetVal

/-- `UpdateBuilder` (the `select_exec.go` revision, which carries the
`allowEmptyWhere` flag).  The batch-update mode (`batch` field delegating
to `batchUpdateBuilder`) is not modelled: every claim concerns the plain,
non-batch update path, and `SQL` below is the non-batch branch. -/
structure UpdateBuilder where
  d : Dialect
  table : List Char
  sets : List SetItem
  where_ : WhereBuilder
  err : Option String
  allowEmptyWhere : Bool
  limit : Option Int

/-- Loop of `UpdateBuilder.Map` over the sorted keys (`select_exec.go`
lines 328–335). -/
def updateMapLoop : UpdateBuilder → List (List Char) → List (List Char × GoVal) → UpdateBuilder
  | b, [], _ => b
  | b, k :: ks, values =>
    match quoteColumnStrict b.d k with
    | none => { b with err := some "corm: invalid column identifier" }
    | some _ =>
      updateMapLoop { b with sets := b.sets ++ [⟨k, .val (lookupVal values k)⟩] } ks values

/-- `UpdateBuilder.Map` (`select_exec.go` lines 312–336): extract the map's
keys, sort them, then append one SET item per key in sorted order.  The
`values` argument lists the map's entries in Go's (unspecified) iteration
order. -/
def UpdateBuilder.Map (b : UpdateBuilder) (values : List (List Char × GoVal)) : UpdateBuilder :=
  if b.err.isSome then b
  else updateMapLoop b (sortStrings (values.map fun kv => kv.1)) values

/-- The SET-section loop of `UpdateBuilder.SQL` (`select_exec.go` lines
586–604): `, `-separated `column = value` entries, where an `Expr` value
goes through `appendExpr` and a plain value through `add`. -/
def appendSets : ArgBuilderState → Bool → List SetItem → Except String ArgBuilderState
  | ab, _, [] => .ok ab
  | ab, first, s :: rest =>
    let ab := if first then ab else { ab with buf := ab.buf ++ (", ").data }
    match quoteColumnStrict ab.d s.column with
    | none => .error "corm: invalid column identifier"
    | some col =>
      let ab := { ab with buf := ab.buf ++ col ++ (" = ").data }
      match s.value with
      | .expr e =>
        match appendExpr ab e with
        | .error msg => .error msg
        | .ok ab => appendSets ab false rest
      | .val v =>
        let r := ab.add v
        appendSets { r.1 with buf := r.1.buf ++ r.2 } false rest

/-- `UpdateBuilder.SQL` (`select_exec.go` lines 557–626), non-batch branch.
(The `b.d == nil` check of the source cannot arise here: `Dialect` is a
total value.)  Note the order: the WHERE section is appended first, and
only then is the empty-WHERE guard checked. -/
def UpdateBuilder.SQL (b : UpdateBuilder) : Except String (List Char × List GoVal) :=
  match b.err with
  | some msg => .error msg
  | none =>
    if trimSpace b.table = [] then .error "corm: missing table for update"
    else if b.sets.isEmpty then .error "corm: missing set values for update"
    else
      match quoteIdentStrict b.d b.table with
      | none => .error "corm: invalid table identifier"
      | some qTable =>
        let ab := { newArgBuilder b.d with buf := ("UPDATE ").data ++ qTable ++ (" SET ").data }
        match appendSets ab true b.sets with
        | .error msg => .error msg
        | .ok ab =>
          match b.where_.appendWhere ab with
          | .error msg => .error msg
          | .ok ab =>
            if ¬ b.allowEmptyWhere ∧ b.where_.items.isEmpty then
              .error "corm: update without where clause is not allowed, use AllowEmptyWhere() to override"
            else
              match b.limit with
              | none => .ok (ab.buf, ab.args)
              | some l =>
                if l < 0 then .error "corm: invalid limit"
                else if ¬ b.d.Name = "mysql" then
                  .error "corm: update limit is only supported by mysql dialect"
                else
                  let r := ab.add (GoVal.atom l)
                  .ok (r.1.buf ++ (" LIMIT ").data ++ r.2, r.1.args)

/-! ## DELETE builder (`builder/delete.go`) -/

/-- `DeleteBuilder` (`delete.go` lines 14–22). -/
structure DeleteBuilder where
  d : Dialect
  table : List Char
  where_ : WhereBuilder
  allowEmptyWhere : Bool
  limit : Option Int
  err : Option String

/-- `DeleteBuilder.SQL` (`delete.go` lines 139–180).  As for UPDATE, the
WHERE section is appended first and the empty-WHERE guard checked after. -/
def DeleteBuilder.SQL (b : DeleteBuilder) : Except String (List Char × List GoVal) :=
  match b.err with
  | some msg => .error msg
  | none =>
    if trimSpace b.table = [] then .error "corm: missing table for delete"
    else
      match quoteIdentStrict b.d b.table with
      | none => .error "corm: invalid table identifier"
      | some qTable =>
        let ab := { newArgBuilder b.d with buf := ("DELETE FROM ").data ++ qTable }
        match b.where_.appendWhere ab with
        | .error msg => .error msg
        | .ok ab =>
          if ¬ b.allowEmptyWhere ∧ b.where_.items.isEmpty then
            .error "corm: delete without where clause is not allowed, use AllowEmptyWhere() to override"
          else
            match b.limit with
            | none => .ok (ab.buf, ab.args)
            | some l =>
              if l < 0 then .error "corm: invalid limit"
              else if ¬ b.d.Name = "mysql" then
                .error "corm: delete limit is only supported by mysql dialect"
              else
                let r := ab.add (GoVal.atom l)
                .ok (r.1.buf ++ (" LIMIT ").data ++ r.2, r.1.args)

/-! ## INSERT builder (`builder/insert.go`), the map-sourced row path -/

/-- `InsertBuilder` (`insert.go` lines 17–33), the fields the map path
touches. -/
structure InsertBuilder where
  d : Dialect
  table : List Char
  columns : List (List Char)
  rows : List (List GoVal)
  err : Option String

/-- ASCII lower-casing (`strings.ToLower` on the ASCII keys the claims
use). -/
def toLowerList (s : List Char) : List Char :=
  s.map Char.toLower

/-- Loop of `InsertBuilder.Map` without a predeclared column list
(`insert.go` lines 186–195): per sorted key, validate the column, append
it to the builder's column list and its value to the row; the finished row
is appended to `rows`. -/
def insertMapLoop : InsertBuilder → List GoVal → List (List Char) →
    List (List Char × GoVal) → InsertBuilder
  | b, row, [], _ => { b with rows := b.rows ++ [row] }
  | b, row, k :: ks, values =>
    match quoteColumnStrict b.d k with
    | none => { b with err := some "corm: invalid column identifier" }
    | some _ =>
      insertMapLoop { b with columns := b.columns ++ [k] }
        (row ++ [lookupVal values k]) ks values

/-- Loop of `InsertBuilder.Map` with a predeclared column list (`insert.go`
lines 159–175): per declared column, take the value under the exact key,
falling back to a case-insensitive match. -/
def insertMapWithColumns : InsertBuilder → List GoVal → List (List Char) →
    List (List Char × GoVal) → InsertBuilder
  | b, row, [], _ => { b with rows := b.rows ++ [row] }
  | b, row, col :: cols, values =>
    match lookupOpt values col with
    | some v => insertMapWithColumns b (row ++ [v]) cols values
    | none =>
      match lookupOpt (values.map fun kv => (toLowerList kv.1, kv.2)) (toLowerList col) with
      | some v => insertMapWithColumns b (row ++ [v]) cols values
      | none => { b with err := some ("corm: missing value for column: " ++ String.mk col) }

/-- `InsertBuilder.Map` (`insert.go` lines 147–197): with a predeclared
column list, follow that order; without one, derive the columns from the
map's keys in sorted order.  The `values` argument lists the map's entries
in Go's (unspecified) iteration order. -/
def InsertBuilder.Map (b : InsertBuilder) (values : List (List Char × GoVal)) : InsertBuilder :=
  if b.err.isSome then b
  else if values.isEmpty then b
  else if ¬ b.columns.isEmpty then insertMapWithColumns b [] b.columns values
  else insertMapLoop b [] (sortStrings (values.map fun kv => kv.1)) values

/-! ## Legacy UPDATE builder (`builder/update.go` revision) -/

/-- Inner single-quoted-literal loop of the legacy postgres
`RewritePlaceholders`: consume up to and including the closing quote
(doubled quotes stay inside); returns the consumed text and the rest. -/
def legacyScanSingle : List Char → List Char × List Char
  | [] => ([], [])
  | '\'' :: '\'' :: s =>
    let r := legacyScanSingle s
    ('\'' :: '\'' :: r.1, r.2)
  | '\'' :: s => (['\''], s)
  | c :: s =>
    let r := legacyScanSingle s
    (c :: r.1, r.2)

/-- Inner double-quoted-identifier loop of the legacy postgres
`RewritePlaceholders`. -/
def legacyScanDouble : List Char → List Char × List Char
  | [] => ([], [])
  | '"' :: '"' :: s =>
    let r := legacyScanDouble s
    ('"' :: '"' :: r.1, r.2)
  | '"' :: s => (['"'], s)
  | c :: s =>
    let r := legacyScanDouble s
    (c :: r.1, r.2)

/-- Inner block-comment loop of the legacy postgres `RewritePlaceholders`:
scan to the terminator (consuming it) or, if none, stop one character
short of the end, exactly as the source's `j+1 < n` guard does. -/
def legacyScanBlock : List Char → List Char × List Char
  | '*' :: '/' :: s => (['*', '/'], s)
  | [c] => ([], [c])
  | [] => ([], [])
  | c :: s =>
    let r := legacyScanBlock s
    (c :: r.1, r.2)

/-- `isDollarTag` of the legacy postgres dialect. -/
def isDollarTag (s : List Char) : Bool :=
  s.all isTagChar

/-- `strings.Index`: position of the first occurrence of `pat` (nonempty
here) in `s`. -/
def indexOfSeq (pat : List Char) : List Char → Option Nat
  | [] => none
  | s@(_ :: rest) =>
    if pat.isPrefixOf s then some 0 else (indexOfSeq pat rest).map fun n => n + 1

/-- Outer loop of the legacy postgres `RewritePlaceholders` (the unnamed
dialect source file): a line comment copies the remainder and stops; block
comments, quoted regions and well-formed dollar regions are copied
verbatim through the inner loops; every remaining `?` becomes `$idx`.
Never fails.  Fuel counts outer-loop iterations. -/
def legacyPGRewriteAux : Nat → Nat → List Char → List Char × Nat
  | 0, idx, _ => ([], idx)
  | _ + 1, idx, [] => ([], idx)
  | _ + 1, idx, '-' :: '-' :: s => ('-' :: '-' :: s, idx)
  | fuel + 1, idx, '/' :: '*' :: s =>
    let inner := legacyScanBlock s
    let r := legacyPGRewriteAux fuel idx inner.2
    ('/' :: '*' :: inner.1 ++ r.1, r.2)
  | fuel + 1, idx, '\'' :: s =>
    let inner := legacyScanSingle s
    let r := legacyPGRewriteAux fuel idx inner.2
    ('\'' :: inner.1 ++ r.1, r.2)
  | fuel + 1, idx, '"' :: s =>
    let inner := legacyScanDouble s
    let r := legacyPGRewriteAux fuel idx inner.2
    ('"' :: inner.1 ++ r.1, r.2)
  | fuel + 1, idx, '$' :: s =>
    let tag := s.takeWhile fun c => ¬ c = '$'
    match s.dropWhile (fun c => ¬ c = '$') with
    | '$' :: after =>
      if isDollarTag tag then
        let delim := '$' :: tag ++ ['$']
        match indexOfSeq delim after with
        | some k =>
          let r := legacyPGRewriteAux fuel idx (after.drop (k + delim.length))
          (delim ++ after.take (k + delim.length) ++ r.1, r.2)
        | none =>
          let r := legacyPGRewriteAux fuel idx s
          ('$' :: r.1, r.2)
      else
        let r := legacyPGRewriteAux fuel idx s
        ('$' :: r.1, r.2)
    | _ =>
      let r := legacyPGRewriteAux fuel idx s
      ('$' :: r.1, r.2)
  | fuel + 1, idx, '?' :: s =>
    let r := legacyPGRewriteAux fuel (idx + 1) s
    ('$' :: itoa idx ++ r.1, r.2)
  | fuel + 1, idx, c :: s =>
    let r := legacyPGRewriteAux fuel idx s
    (c :: r.1, r.2)

/-- Legacy `postgresDialect.RewritePlaceholders`. -/
def legacyPGRewritePlaceholders (sql : List Char) (startIndex : Nat) : List Char × Nat :=
  if ¬ sql.contains '?' then (sql, startIndex)
  else legacyPGRewriteAux sql.length startIndex sql

/-- The legacy `Dialect.RewritePlaceholders` method: identity for mysql,
the scanner above for postgres. -/
def Dialect.RewritePlaceholdersLegacy : Dialect → List Char → Nat → List Char × Nat
  | .mysql, sql, idx => (sql, idx)
  | .postgres, sql, idx => legacyPGRewritePlaceholders sql idx

/-- The legacy `UpdateBuilder` of `builder/update.go`: the revision whose
`SetMap` iterates the Go map directly and whose `SQL` has no empty-WHERE
guard.  Set values in this revision are always rendered as a single
placeholder, so they are plain values. -/
structure UpdateBuilderLegacy where
  d : Dialect
  table : List Char
  sets : List (List Char × GoVal)
  where_ : List Expr
  err : Option String

/-- Legacy `UpdateBuilder.SetMap` (`update.go` lines 97–102): appends one
SET item per map entry **in map-iteration order** (the `values` argument
lists the entries in that order); no sorting, no validation. -/
def UpdateBuilderLegacy.SetMap (b : UpdateBuilderLegacy)
    (values : List (List Char × GoVal)) : UpdateBuilderLegacy :=
  { b with sets := b.sets ++ values }

/-- The SET-section loop of the legacy `UpdateBuilder.SQL` (`update.go`
lines 147–156): `, `-separated `quoteMaybe(col) = placeholder(idx)`
entries; returns the rendered text, the argument list, and the next
placeholder index. -/
def legacySetsRender (d : Dialect) : Nat → Bool → List (List Char × GoVal) →
    List Char × List GoVal × Nat
  | idx, _, [] => ([], [], idx)
  | idx, first, (col, v) :: rest =>
    let head := (if first then [] else (", ").data) ++
      quoteMaybe d col ++ (" = ").data ++ d.Placeholder idx
    let r := legacySetsRender d (idx + 1) false rest
    (head ++ r.1, v :: r.2.1, r.2.2)

/-- The WHERE-section loop of the legacy `UpdateBuilder.SQL` (`update.go`
lines 158–171): `" AND "`-separated parenthesized conditions, rewritten
through the legacy dialect `RewritePlaceholders`. -/
def legacyWhereRender (d : Dialect) : Nat → Bool → List Expr →
    List Char × List GoVal × Nat
  | idx, _, [] => ([], [], idx)
  | idx, first, w :: rest =>
    let p := d.RewritePlaceholdersLegacy w.sql idx
    let head := (if first then [] else (" AND ").data) ++ '(' :: p.1 ++ [')']
    let r := legacyWhereRender d p.2 false rest
    (head ++ r.1, w.args ++ r.2.1, r.2.2)

/-- Legacy `UpdateBuilder.SQL` (`update.go` lines 127–174): note there is
no empty-WHERE guard in this revision. -/
def UpdateBuilderLegacy.SQL (b : UpdateBuilderLegacy) :
    Except String (List Char × List GoVal) :=
  match b.err with
  | some msg => .error msg
  | none =>
    if trimSpace b.table = [] then .error "corm: missing table for update"
    else if b.sets.isEmpty then .error "corm: missing set values for update"
    else
      let s := legacySetsRender b.d 1 true b.sets
      let base := ("UPDATE ").data ++ quoteMaybe b.d b.table ++ (" SET ").data ++ s.1
      if b.where_.isEmpty then .ok (base, s.2.1)
      else
        let w := legacyWhereRender b.d s.2.2 true b.where_
        .ok (base ++ (" WHERE ").data ++ w.1, s.2.1 ++ w.2.1)


/-! ## Auxiliary definitions for the verification -/

/-- A character that, in normal mode, is consumed as an ordinary byte:
not a quote, not a comment starter, not a dollar sign and not the
placeholder marker. -/
def plainScanChar (c : Char) : Bool :=
  ¬ (c = '\'' ∨ c = '"' ∨ c = '-' ∨ c = '/' ∨ c = '$' ∨ c = '?')

/-- One lexical unit of a single-quoted SQL literal body: an ordinary
character, a backslash-escaped character (backslash-escaping dialects
only), or an escaped quote written as a doubled quote. -/
inductive LitUnit where
  | plain (c : Char)
  | escaped (c : Char)
  | doubled

/-- The text of a single-quoted literal body. -/
def litBody : List LitUnit → List Char
  | [] => []
  | .plain c :: us => c :: litBody us
  | .escaped c :: us => '\\' :: c :: litBody us
  | .doubled :: us => '\'' :: '\'' :: litBody us

/-- Well-formedness of a literal-body unit under escape flag `esc`: an
ordinary character is not a quote (nor, when `esc`, a backslash), and
backslash escapes only occur when `esc`. -/
def goodUnit (esc : Bool) : LitUnit → Bool
  | .plain c => ¬ c = '\'' ∧ (esc = true → ¬ c = '\\')
  | .escaped _ => esc
  | .doubled => true

/-- Length of the rewritten text of a rewrite result (0 for an error):
lets the 1MB-cap hypothesis of the round-trip theorem be stated
uniformly. -/
def rewrittenLength : Except String (List Char × Nat) → Nat
  | .ok (out, _) => out.length
  | .error _ => 0

/-- Whether a rewrite result is a success. -/
def exceptIsOk : Except String (List Char × Nat) → Bool
  | .ok _ => true
  | .error _ => false

/-- The scanner, started in mode `st`, consumes exactly the text `pre`
(whatever follows it) through a chain of steps that count no marker,
ending in mode `st2`.  This is the sense in which a quoted literal, a
comment or a dollar-quoted region is opaque to placeholder compilation:
both loops walk it verbatim. -/
inductive ScanEats (esc : Bool) : ScanState → List Char → ScanState → Prop where
  | refl (st : ScanState) : ScanEats esc st [] st
  | step (st st1 st2 : ScanState) (chunk pre : List Char)
      (hne : ¬ chunk = [])
      (h : ∀ rest, scanStep esc st (chunk ++ (pre ++ rest)) = (st1, 0, chunk, pre ++ rest))
      (htail : ScanEats esc st1 pre st2) :
      ScanEats esc st (chunk ++ pre) st2

/-! ## Supporting lemmas -/


/-- A prefix test followed by dropping the prefix length reconstitutes the
list. -/
lemma prefix_append_drop {l p : List Char} (h : p.isPrefixOf l = true) :
    p ++ l.drop p.length = l := by
  obtain ⟨t, rfl⟩ := List.isPrefixOf_iff_prefix.1 h
  rw [List.drop_left]

/-- The scanner step is sound: on nonempty input it splits the input into
the nonempty consumed chunk and the rest, and it reports a marker exactly
for a normal-mode `?`. -/
lemma scanStep_spec (esc : Bool) (st : ScanState) (c : Char) (s : List Char) :
    (scanStep esc st (c :: s)).2.2.1 ++ (scanStep esc st (c :: s)).2.2.2 = c :: s ∧
    ¬ (scanStep esc st (c :: s)).2.2.1 = [] ∧
    ((scanStep esc st (c :: s)).2.1 = 0 ∨
      ((scanStep esc st (c :: s)).2.1 = 1 ∧ st = .normal ∧ c = '?' ∧
        (scanStep esc st (c :: s)).2.2.2 = s)) := by
  rcases st with _ | _ | _ | _ | _ | ⟨tc, tcs⟩ <;>
    unfold scanStep <;>
    (repeat' split)
  all_goals try contradiction
  all_goals
    first
      | exact ⟨rfl, by simp, Or.inl rfl⟩
      | exact ⟨rfl, by simp, Or.inr ⟨rfl, rfl, by assumption, rfl⟩⟩
      | exact ⟨prefix_append_drop (by assumption), by simp, Or.inl rfl⟩
      | (refine ⟨?_, by simp, Or.inl rfl⟩; simp_all [List.takeWhile_append_dropWhile])
      | simp_all
  all_goals try (rename_i hdw; rw [← hdw]; exact List.takeWhile_append_dropWhile _ _)
  all_goals (rename_i h; obtain ⟨t, rfl⟩ := h.2; simp [List.drop_left])


/-- The rest after a step is strictly shorter than the input. -/
lemma scanStep_rest_lt (esc : Bool) (st : ScanState) (c : Char) (s : List Char) :
    (scanStep esc st (c :: s)).2.2.2.length < (c :: s).length := by
  obtain ⟨happ, hne, _⟩ := scanStep_spec esc st c s
  have hlen := congrArg List.length happ
  rw [List.length_append] at hlen
  have h1 : 0 < (scanStep esc st (c :: s)).2.2.1.length := List.length_pos.2 hne
  omega

lemma countAux_nil (esc : Bool) (fuel : Nat) (st : ScanState) :
    countAux esc fuel st [] = 0 := by
  cases fuel <;> rfl

lemma rewriteCommonAux_nil (isPg : Bool) (fuel : Nat) (st : ScanState) (next : Nat) :
    rewriteCommonAux isPg fuel st next [] = .ok ([], next) := by
  cases fuel <;> rfl

lemma countAux_cons (esc : Bool) (fuel : Nat) (st : ScanState) (c : Char) (s : List Char) :
    countAux esc (fuel + 1) st (c :: s) =
      countAux esc fuel (scanStep esc st (c :: s)).1 (scanStep esc st (c :: s)).2.2.2 +
        (scanStep esc st (c :: s)).2.1 := rfl

lemma rewriteCommonAux_cons (isPg : Bool) (fuel : Nat) (st : ScanState) (next : Nat)
    (c : Char) (s : List Char) :
    rewriteCommonAux isPg (fuel + 1) st next (c :: s) =
      (if (scanStep (!isPg) st (c :: s)).2.1 = 1 then
        if isPg then
          match jsonbConflictError (scanStep (!isPg) st (c :: s)).2.2.2 with
          | some e => .error e
          | none =>
            consOut ('$' :: itoa next)
              (rewriteCommonAux isPg fuel (scanStep (!isPg) st (c :: s)).1 (next + 1)
                (scanStep (!isPg) st (c :: s)).2.2.2)
        else
          consOut ('$' :: itoa next)
            (rewriteCommonAux isPg fuel (scanStep (!isPg) st (c :: s)).1 (next + 1)
              (scanStep (!isPg) st (c :: s)).2.2.2)
      else
        consOut (scanStep (!isPg) st (c :: s)).2.2.1
          (rewriteCommonAux isPg fuel (scanStep (!isPg) st (c :: s)).1 next
            (scanStep (!isPg) st (c :: s)).2.2.2)) := rfl

/-- Any fuel at least the input length computes the same marker count. -/
lemma countAux_fuel (esc : Bool) :
    ∀ (n f1 f2 : Nat) (st : ScanState) (s : List Char),
    s.length ≤ n → s.length ≤ f1 → s.length ≤ f2 →
    countAux esc f1 st s = countAux esc f2 st s := by
  intro n
  induction n with
  | zero =>
    intro f1 f2 st s hn _ _
    have hs : s = [] := List.length_eq_zero.1 (Nat.le_zero.1 hn)
    subst hs
    rw [countAux_nil, countAux_nil]
  | succ n ih =>
    intro f1 f2 st s hn h1 h2
    rcases s with _ | ⟨c, s⟩
    · rw [countAux_nil, countAux_nil]
    · rcases f1 with _ | f1
      · exact absurd h1 (by simp)
      rcases f2 with _ | f2
      · exact absurd h2 (by simp)
      rw [countAux_cons, countAux_cons]
      have hlt := scanStep_rest_lt esc st c s
      simp only [List.length_cons] at hlt hn h1 h2
      congr 1
      exact ih f1 f2 _ _ (by omega) (by omega) (by omega)

/-- Any fuel at least the input length computes the same rewrite result. -/
lemma rewriteCommonAux_fuel (isPg : Bool) :
    ∀ (n f1 f2 : Nat) (st : ScanState) (next : Nat) (s : List Char),
    s.length ≤ n → s.length ≤ f1 → s.length ≤ f2 →
    rewriteCommonAux isPg f1 st next s = rewriteCommonAux isPg f2 st next s := by
  intro n
  induction n with
  | zero =>
    intro f1 f2 st next s hn _ _
    have hs : s = [] := List.length_eq_zero.1 (Nat.le_zero.1 hn)
    subst hs
    rw [rewriteCommonAux_nil, rewriteCommonAux_nil]
  | succ n ih =>
    intro f1 f2 st next s hn h1 h2
    rcases s with _ | ⟨c, s⟩
    · rw [rewriteCommonAux_nil, rewriteCommonAux_nil]
    · rcases f1 with _ | f1
      · exact absurd h1 (by simp)
      rcases f2 with _ | f2
      · exact absurd h2 (by simp)
      rw [rewriteCommonAux_cons, rewriteCommonAux_cons]
      have hlt := scanStep_rest_lt (!isPg) st c s
      simp only [List.length_cons] at hlt hn h1 h2
      rw [ih f1 f2 _ (next + 1) _ (by omega) (by omega) (by omega),
        ih f1 f2 _ next _ (by omega) (by omega) (by omega)]

/-- Lock step between the rewriter and the counter: when the postgres
rewrite of a fragment succeeds, the index advances by exactly the number
of normal-mode markers the counter sees (with backslash escaping off, as
for postgres). -/
lemma rewrite_ok_next :
    ∀ (n fuel : Nat) (st : ScanState) (next : Nat) (s : List Char),
    s.length ≤ n → s.length ≤ fuel →
    ∀ out next', rewriteCommonAux true fuel st next s = .ok (out, next') →
    next' = next + countAux false fuel st s := by
  intro n
  induction n with
  | zero =>
    intro fuel st next s hn _ out next' h
    have hs : s = [] := List.length_eq_zero.1 (Nat.le_zero.1 hn)
    subst hs
    rw [rewriteCommonAux_nil] at h
    injection h with h
    injection h with h1 h2
    rw [countAux_nil]
    omega
  | succ n ih =>
    intro fuel st next s hn hf out next' h
    rcases s with _ | ⟨c, s⟩
    · rw [rewriteCommonAux_nil] at h
      injection h with h
      injection h with h1 h2
      rw [countAux_nil]
      omega
    · rcases fuel with _ | fuel
      · exact absurd hf (by simp)
      rw [rewriteCommonAux_cons] at h
      rw [countAux_cons]
      have hlt := scanStep_rest_lt (!true) st c s
      simp only [List.length_cons] at hlt hn hf
      simp only [Bool.not_true] at h hlt ⊢
      by_cases hk : (scanStep false st (c :: s)).2.1 = 1
      · rw [if_pos hk] at h
        simp only [if_true] at h
        rcases hj : jsonbConflictError (scanStep false st (c :: s)).2.2.2 with _ | e
        · rw [hj] at h
          rcases hr : rewriteCommonAux true fuel (scanStep false st (c :: s)).1 (next + 1)
              (scanStep false st (c :: s)).2.2.2 with e' | ⟨out', next''⟩
          · rw [hr] at h
            exact absurd h (by simp [consOut])
          · rw [hr] at h
            simp only [consOut] at h
            injection h with h
            injection h with h1 h2
            subst h2
            have := ih fuel _ (next + 1) _ (by omega) (by omega) out' next'' hr
            rw [hk, this]
            omega
        · rw [hj] at h
          exact absurd h (by simp)
      · rw [if_neg hk] at h
        rcases hr : rewriteCommonAux true fuel (scanStep false st (c :: s)).1 next
            (scanStep false st (c :: s)).2.2.2 with e' | ⟨out', next''⟩
        · rw [hr] at h
          exact absurd h (by simp [consOut])
        · rw [hr] at h
          simp only [consOut] at h
          injection h with h
          injection h with h1 h2
          subst h2
          have hk0 : (scanStep false st (c :: s)).2.1 = 0 := by
            rcases (scanStep_spec false st c s).2.2 with h0 | ⟨h1', _⟩
            · exact h0
            · exact absurd h1' hk
          have := ih fuel _ next _ (by omega) (by omega) out' next'' hr
          rw [hk0, this]
          omega


/-- A character that is none of the five special characters steps the
normal mode to itself, consuming one byte and counting a marker exactly
for `?`. -/
lemma scanStep_normal_simple (esc : Bool) (c : Char) (s : List Char)
    (h : ¬ (c = '\'' ∨ c = '"' ∨ c = '-' ∨ c = '/' ∨ c = '$')) :
    scanStep esc .normal (c :: s) = (.normal, if c = '?' then 1 else 0, [c], s) := by
  by_cases hq : c = '?'
  · subst hq
    rfl
  · rw [if_neg hq]
    unfold scanStep
    repeat' split
    all_goals simp_all

lemma simpleRewrite_cons_ne (c : Char) (s : List Char) (n : Nat) (hc : ¬ c = '?') :
    simpleRewrite (c :: s) n = (c :: (simpleRewrite s n).1, (simpleRewrite s n).2) := by
  conv_lhs => unfold simpleRewrite
  repeat' split
  all_goals simp_all

lemma simpleRewrite_next : ∀ (s : List Char) (n : Nat),
    (simpleRewrite s n).2 = n + s.count '?' := by
  intro s
  induction s with
  | nil => intro n; simp [simpleRewrite]
  | cons c s ih =>
    intro n
    by_cases hc : c = '?'
    · subst hc
      simp only [simpleRewrite, ih, List.count_cons]
      simp
      omega
    · rw [simpleRewrite_cons_ne c s n hc]
      simp only [ih, List.count_cons]
      simp [hc]

/-- On inputs with none of the special characters, the normal-mode marker
count is the raw `?` count. -/
lemma countAux_simple (esc : Bool) :
    ∀ (s : List Char) (fuel : Nat), s.length ≤ fuel →
    (∀ c ∈ s, ¬ (c = '\'' ∨ c = '"' ∨ c = '-' ∨ c = '/' ∨ c = '$')) →
    countAux esc fuel .normal s = s.count '?' := by
  intro s
  induction s with
  | nil => intro fuel _ _; rw [countAux_nil]; rfl
  | cons c s ih =>
    intro fuel hf hch
    rcases fuel with _ | fuel
    · exact absurd hf (by simp)
    rw [countAux_cons, scanStep_normal_simple esc c s (hch c (List.mem_cons_self c s))]
    have := ih fuel (by simpa using hf) (fun d hd => hch d (List.mem_cons_of_mem c hd))
    by_cases hc : c = '?'
    · subst hc
      simp only [this, List.count_cons]
      simp
    · simp only [this, List.count_cons]
      simp [hc]

/-- A scan starting anywhere in an input with no `?` byte counts no
markers. -/
lemma countAux_no_marker (esc : Bool) :
    ∀ (n fuel : Nat) (st : ScanState) (s : List Char), s.length ≤ n → s.length ≤ fuel →
    '?' ∉ s → countAux esc fuel st s = 0 := by
  intro n
  induction n with
  | zero =>
    intro fuel st s hn _ _
    have hs : s = [] := List.length_eq_zero.1 (Nat.le_zero.1 hn)
    subst hs
    rw [countAux_nil]
  | succ n ih =>
    intro fuel st s hn hf hq
    rcases s with _ | ⟨c, s⟩
    · rw [countAux_nil]
    · rcases fuel with _ | fuel
      · exact absurd hf (by simp)
      rw [countAux_cons]
      obtain ⟨happ, hne, hk⟩ := scanStep_spec esc st c s
      have hlt := scanStep_rest_lt esc st c s
      simp only [List.length_cons] at hlt hn hf
      have hq' : '?' ∉ (scanStep esc st (c :: s)).2.2.2 := by
        intro hmem
        exact hq (happ ▸ List.mem_append_right _ hmem)
      have hk0 : (scanStep esc st (c :: s)).2.1 = 0 := by
        rcases hk with h0 | ⟨_, _, hc, _⟩
        · exact h0
        · exact absurd (hc ▸ List.mem_cons_self c s : '?' ∈ c :: s) hq
      rw [hk0, ih fuel _ _ (by omega) (by omega) hq']

/-- Master lemma for the numbered dialect: a successful
`rewritePlaceholdersCommon` advances the index by exactly the number of
normal-mode markers that `countQuestionPlaceholders` (without backslash
escaping) reports. -/
lemma rewritePlaceholdersCommon_ok_next (sql : List Char) (idx : Nat) (out : List Char)
    (next : Nat) (h : rewritePlaceholdersCommon sql idx true = .ok (out, next)) :
    next = idx + countQuestionPlaceholders sql false := by
  unfold rewritePlaceholdersCommon at h
  rw [if_neg (by simp)] at h
  by_cases hsimple : isSimpleSQL sql = true ∧ sql.contains '?' = true
  · rw [if_pos (by exact ⟨hsimple.1, hsimple.2⟩)] at h
    injection h with h
    have h1 := congrArg Prod.snd h
    simp only at h1
    rw [← h1, simpleRewrite_next]
    unfold countQuestionPlaceholders
    rw [if_pos hsimple.2]
    have hch : ∀ c ∈ sql, ¬ (c = '\'' ∨ c = '"' ∨ c = '-' ∨ c = '/' ∨ c = '$') := by
      intro c hc hcontra
      have := hsimple.1
      unfold isSimpleSQL at this
      simp only [decide_eq_true_eq] at this
      exact this (List.any_eq_true.2 ⟨c, hc, by simpa using hcontra⟩)
    rw [countAux_simple false sql sql.length (le_refl _) hch]
  · rw [if_neg (by simpa using hsimple)] at h
    have hnext := rewrite_ok_next sql.length sql.length .normal idx sql (le_refl _)
      (le_refl _) out next h
    unfold countQuestionPlaceholders
    by_cases hc : sql.contains '?' = true
    · rw [if_pos hc]
      exact hnext
    · rw [if_neg hc]
      rw [countAux_no_marker false sql.length sql.length .normal sql (le_refl _) (le_refl _)
        (by simpa using hc)] at hnext
      omega

/-- `buildIn`'s fast cases (argument counts 1–5) agree with its general
loop: the output is always `<column> IN (` + one `?` per argument,
comma-separated + `)`, with the argument list passed through unchanged. -/
lemma buildIn_spec (column : List Char) (args : List GoVal) :
    buildIn column args = ⟨column ++ (" IN (").data ++ qmarks args.length ++ [')'], args⟩ := by
  have e1 : (" IN (?)").data = (" IN (").data ++ qmarks 1 ++ [')'] := rfl
  have e2 : (" IN (?, ?)").data = (" IN (").data ++ qmarks 2 ++ [')'] := rfl
  have e3 : (" IN (?, ?, ?)").data = (" IN (").data ++ qmarks 3 ++ [')'] := rfl
  have e4 : (" IN (?, ?, ?, ?)").data = (" IN (").data ++ qmarks 4 ++ [')'] := rfl
  have e5 : (" IN (?, ?, ?, ?, ?)").data = (" IN (").data ++ qmarks 5 ++ [')'] := rfl
  unfold buildIn
  rcases hn : args.length with _ | _ | _ | _ | _ | _ | n
  · simp
  · simp [e1]; rfl
  · simp [e2]; rfl
  · simp [e3]; rfl
  · simp [e4]; rfl
  · simp [e5]; rfl
  · simp

/-- Dropping one empty-text member from `join`'s input never changes the
result. -/
lemma join_drop_empty (op : List Char) (es1 es2 : List Expr) (e : Expr)
    (h : trimSpace e.sql = []) :
    join op (es1 ++ e :: es2) = join op (es1 ++ es2) := by
  unfold join
  have hfilter : (es1 ++ e :: es2).filter (fun x => ¬ trimSpace x.sql = []) =
      (es1 ++ es2).filter (fun x => ¬ trimSpace x.sql = []) := by
    simp [List.filter_append, List.filter_cons, h]
  by_cases he : (es1 ++ es2).isEmpty
  · have h2 : es1 ++ es2 = [] := by simpa [List.isEmpty_iff] using he
    rcases List.append_eq_nil.1 h2 with ⟨h3, h4⟩
    subst h3; subst h4
    simp [h]
  · have h1 : (es1 ++ e :: es2).isEmpty = false := by
      simp [List.isEmpty_iff]
    have h2 : (es1 ++ es2).isEmpty = false := by
      simpa using he
    rw [h1, h2]
    simp only [Bool.false_eq_true, if_false, hfilter]

/-! ## Claim C4 -/

/-- C4: for every column name, `In` called with no values, with an empty
sequence, or with a nil sequence (a nil Go slice has length zero and is
modelled, like the empty one, by `GoVal.slice []`) returns the fragment
`1=0` with zero arguments, so an empty IN list never reaches the generated
SQL. -/
theorem c4_In_empty_is_one_eq_zero (column : List Char) :
    In column [] = ⟨oneEqZero, []⟩ ∧ In column [GoVal.slice []] = ⟨oneEqZero, []⟩ :=
  ⟨rfl, rfl⟩

/-! ## Claim C5 -/

/-- C5: `In` flattens sequence arguments (byte sequences are scalars)
exactly one level deep, preserving order: whenever something remains after
flattening, the result is `<column> IN (?, ..., ?)` with one placeholder
per flattened element and the flattened elements, in encounter order, as
the arguments.  (Nested sequences flatten exactly one level because
`flattenOne` keeps inner `slice` values intact.)  The `In("mix", 1, [2,3],
4)` instance of the claim is the witness below. -/
theorem c5_In_flattens_one_level (column : List Char) (values : List GoVal)
    (hne : values ≠ []) (hf : flattenOne values ≠ []) :
    In column values =
      ⟨column ++ (" IN (").data ++ qmarks (flattenOne values).length ++ [')'],
        flattenOne values⟩ := by
  have hval : values.isEmpty = false := by simpa [List.isEmpty_iff] using hne
  unfold In
  rw [hval]
  simp only [Bool.false_eq_true, if_false]
  rcases values with _ | ⟨v, vs⟩
  · exact absurd rfl hne
  rcases vs with _ | ⟨w, ws⟩
  · rcases v with n | bs | es
    · simpa [flattenOne] using buildIn_spec column [GoVal.atom n]
    · simpa [flattenOne] using buildIn_spec column [GoVal.bytes bs]
    · have hes : es ≠ [] := by simpa [flattenOne] using hf
      have h1 : es.isEmpty = false := by simpa [List.isEmpty_iff] using hes
      simpa [h1, flattenOne] using buildIn_spec column es
  · have h1 : (flattenOne (v :: w :: ws)).isEmpty = false := by
      simpa [List.isEmpty_iff] using hf
    rcases v with n | bs | es <;>
      simp only [h1, Bool.false_eq_true, if_false] <;>
      exact buildIn_spec column _

/-- Witness for C5, at the claim's own example: `In("mix", 1, [2,3], 4)`
produces `mix IN (?, ?, ?, ?)` with arguments `[1, 2, 3, 4]` in order. -/
theorem c5_witness :
    In ("mix").data [GoVal.atom 1, GoVal.slice [GoVal.atom 2, GoVal.atom 3], GoVal.atom 4] =
      ⟨("mix IN (?, ?, ?, ?)").data,
        [GoVal.atom 1, GoVal.atom 2, GoVal.atom 3, GoVal.atom 4]⟩ := by
  have h := c5_In_flattens_one_level ("mix").data
    [GoVal.atom 1, GoVal.slice [GoVal.atom 2, GoVal.atom 3], GoVal.atom 4]
    (by simp) (by simp [flattenOne])
  simpa [flattenOne, qmarks] using h

/-! ## Claim C6 -/

/-- C6 (amended): `appendExpr` on a fragment whose text is empty (or a
single space, which the leading-space strip empties) returns success with
the builder state unchanged — the fragment *and its arguments* are
silently dropped, not rejected. -/
theorem c6_empty_text_fragment_is_skipped (a : ArgBuilderState) (args : List GoVal) :
    appendExpr a ⟨[], args⟩ = .ok a ∧ appendExpr a ⟨[' '], args⟩ = .ok a :=
  ⟨rfl, rfl⟩

/-- Counterexample to C6 as stated: an empty-text fragment carrying one
argument is accepted (result `.ok`, state unchanged), not rejected with an
error. -/
theorem c6_counterexample :
    appendExpr (newArgBuilder .mysql) ⟨[], [GoVal.atom 1]⟩ = .ok (newArgBuilder .mysql) :=
  rfl

/-! ## Claim C7 -/

/-- C7: `And`/`Or` drop empty-text members without changing the result
(the empty fragment is an identity element of the composition), and the
join of nothing — or of only empty fragments — is the empty fragment. -/
theorem c7_and_or_drop_empty_members (es1 es2 : List Expr) (e : Expr)
    (h : trimSpace e.sql = []) :
    And (es1 ++ e :: es2) = And (es1 ++ es2) ∧
    Or (es1 ++ e :: es2) = Or (es1 ++ es2) ∧
    And [] = ⟨[], []⟩ ∧ Or [] = ⟨[], []⟩ ∧ And [e] = ⟨[], []⟩ ∧ Or [e] = ⟨[], []⟩ := by
  refine ⟨join_drop_empty _ es1 es2 e h, join_drop_empty _ es1 es2 e h, rfl, rfl, ?_, ?_⟩ <;>
    simp [And, Or, join, h]

/-- Witness for C7 at a concrete input: dropping the empty fragment from
`[x, empty, y]` leaves `And`/`Or` unchanged. -/
theorem c7_witness :
    And [⟨('a' : Char) :: [], []⟩, ⟨[], []⟩, ⟨['b'], []⟩] =
        And [⟨['a'], []⟩, ⟨['b'], []⟩] ∧
      Or [⟨['a'], []⟩, ⟨[], []⟩, ⟨['b'], []⟩] = Or [⟨['a'], []⟩, ⟨['b'], []⟩] := by
  have h := c7_and_or_drop_empty_members [⟨['a'], []⟩] [⟨['b'], []⟩] ⟨[], []⟩ rfl
  exact ⟨h.1, h.2.1⟩

/-! ## Claim C10 -/

/-- C10: `appendExpr` errors with the 1MB message whenever appending the
(stripped) fragment text would push the accumulated statement past
`maxSQLLength`, and a successful append never leaves the accumulated text
above the bound (unless it appended nothing at all). -/
theorem c10_append_respects_length_cap (a : ArgBuilderState) (e : Expr) :
    (stripLeadingSpace e.sql ≠ [] →
      a.buf.length + (stripLeadingSpace e.sql).length > maxSQLLength →
      appendExpr a e = .error errTooLong) ∧
    (∀ a', appendExpr a e = .ok a' → a'.buf.length ≤ maxSQLLength ∨ a'.buf = a.buf) := by
  constructor
  · intro hne hgt
    have h1 : (stripLeadingSpace e.sql).isEmpty = false := by
      simpa [List.isEmpty_iff] using hne
    simp [appendExpr, h1, hgt]
  · intro a' h
    simp only [appendExpr] at h
    repeat' split at h
    all_goals try exact Except.noConfusion h
    all_goals injection h with h2
    all_goals subst h2
    all_goals first
      | (right; rfl)
      | (left; simp only [List.length_append]; omega)

/-- Witness for C10: on a builder whose accumulated text already has
exactly `maxSQLLength` bytes, appending any nonempty fragment fails with
the 1MB error. -/
theorem c10_witness :
    appendExpr ⟨Dialect.mysql, 1, [], List.replicate maxSQLLength 'x'⟩ ⟨['a'], []⟩ =
      .error errTooLong := by
  have h := (c10_append_respects_length_cap
      ⟨Dialect.mysql, 1, [], List.replicate maxSQLLength 'x'⟩ ⟨['a'], []⟩).1
  have hs : stripLeadingSpace (Expr.mk ['a'] []).sql = ['a'] := rfl
  have hb : (ArgBuilderState.mk Dialect.mysql 1 [] (List.replicate maxSQLLength 'x')).buf =
      List.replicate maxSQLLength 'x' := rfl
  have h1 : stripLeadingSpace (Expr.mk ['a'] []).sql ≠ [] := by
    rw [hs]
    exact List.cons_ne_nil _ _
  have h2 : (ArgBuilderState.mk Dialect.mysql 1 [] (List.replicate maxSQLLength 'x')).buf.length +
      (stripLeadingSpace (Expr.mk ['a'] []).sql).length > maxSQLLength := by
    rw [hs, hb, List.length_replicate, List.length_singleton]
    omega
  exact h h1 h2

/-! ## Claim C1 -/

/-- `add` does not change the dialect. -/
lemma add_fst_d (a : ArgBuilderState) (v : GoVal) : (a.add v).1.d = a.d := by
  simp only [ArgBuilderState.add]
  split <;> rfl

/-- The SET-section loop succeeds whenever every SET item has a valid
column and a plain (non-`Expr`) value, and it leaves the dialect
unchanged. -/
lemma appendSets_ok (d : Dialect) (sets : List SetItem)
    (h : ∀ s ∈ sets, (quoteColumnStrict d s.column).isSome ∧ ∃ v, s.value = SetVal.val v) :
    ∀ (ab : ArgBuilderState), ab.d = d → ∀ (first : Bool),
    ∃ ab', appendSets ab first sets = .ok ab' ∧ ab'.d = d := by
  induction sets with
  | nil => exact fun ab hd first => ⟨ab, rfl, hd⟩
  | cons s rest ih =>
    intro ab hd first
    obtain ⟨hq, v, hv⟩ := h s (List.mem_cons_self s rest)
    obtain ⟨col, hcol⟩ := Option.isSome_iff_exists.1 hq
    have h' : ∀ s' ∈ rest, (quoteColumnStrict d s'.column).isSome ∧
        ∃ v, s'.value = SetVal.val v :=
      fun s' hs' => h s' (List.mem_cons_of_mem _ hs')
    have hd1 : (if first then ab else { ab with buf := ab.buf ++ (", ").data }).d = d := by
      split <;> exact hd
    simp only [appendSets]
    rw [hd1, hcol, hv]
    exact ih h' _ (by rw [add_fst_d]) false

/-- `appendWhere` of an empty item list writes nothing and succeeds. -/
lemma appendWhere_empty (wb : WhereBuilder) (ab : ArgBuilderState)
    (h : wb.items = []) : wb.appendWhere ab = .ok ab := by
  simp [WhereBuilder.appendWhere, h]

/-- C1: for UPDATE and DELETE builders with an empty WHERE-condition list
(and otherwise valid, compilable contents), `SQL()` is an error unless
`AllowEmptyWhere()` was called; with the opt-in it succeeds, and the
produced statement is exactly the text accumulated *before* the WHERE
stage — for UPDATE the `UPDATE <table> SET <sets>` section, for DELETE the
bare `DELETE FROM <table>` — so no WHERE clause appears. -/
theorem c1_update_delete_empty_where_guard (bu : UpdateBuilder) (bd : DeleteBuilder)
    (qtu qtd : List Char)
    (hue : bu.err = none) (huw : bu.where_.items = [])
    (hut : ¬ trimSpace bu.table = []) (huq : quoteIdentStrict bu.d bu.table = some qtu)
    (hus : ¬ bu.sets = [])
    (husv : ∀ s ∈ bu.sets, (quoteColumnStrict bu.d s.column).isSome ∧
      ∃ v, s.value = SetVal.val v)
    (hul : bu.limit = none)
    (hde : bd.err = none) (hdw : bd.where_.items = [])
    (hdt : ¬ trimSpace bd.table = []) (hdq : quoteIdentStrict bd.d bd.table = some qtd)
    (hdl : bd.limit = none) :
    (bu.allowEmptyWhere = false → bu.SQL =
      .error "corm: update without where clause is not allowed, use AllowEmptyWhere() to override") ∧
    (bu.allowEmptyWhere = true →
      ∃ ab, appendSets ⟨bu.d, 1, [], ("UPDATE ").data ++ qtu ++ (" SET ").data⟩ true bu.sets =
          .ok ab ∧
        bu.SQL = .ok (ab.buf, ab.args)) ∧
    (bd.allowEmptyWhere = false → bd.SQL =
      .error "corm: delete without where clause is not allowed, use AllowEmptyWhere() to override") ∧
    (bd.allowEmptyWhere = true → bd.SQL = .ok (("DELETE FROM ").data ++ qtd, [])) := by
  obtain ⟨ab, hab, habd⟩ := appendSets_ok bu.d bu.sets husv
    ⟨bu.d, 1, [], ("UPDATE ").data ++ qtu ++ (" SET ").data⟩ rfl true
  have hsets : bu.sets.isEmpty = false := by
    simpa [List.isEmpty_iff] using hus
  have hwempty : bu.where_.items.isEmpty = true := by simp [huw]
  have hdwempty : bd.where_.items.isEmpty = true := by simp [hdw]
  have hinit : ({ newArgBuilder bu.d with
      buf := ("UPDATE ").data ++ qtu ++ (" SET ").data } : ArgBuilderState) =
      ⟨bu.d, 1, [], ("UPDATE ").data ++ qtu ++ (" SET ").data⟩ := rfl
  refine ⟨?_, ?_, ?_, ?_⟩
  · intro hallow
    simp only [UpdateBuilder.SQL, hue, hut, hus, hsets, huq, hinit, hab,
      appendWhere_empty bu.where_ ab huw, hallow, hwempty]
    simp
  · intro hallow
    refine ⟨ab, hab, ?_⟩
    simp only [UpdateBuilder.SQL, hue, hut, hus, hsets, huq, hinit, hab,
      appendWhere_empty bu.where_ ab huw, hallow, hul]
    simp
  · intro hallow
    simp only [DeleteBuilder.SQL, hde, hdt, hdq,
      appendWhere_empty bd.where_ _ hdw, hallow, hdwempty]
    simp
  · intro hallow
    simp only [DeleteBuilder.SQL, hde, hdt, hdq,
      appendWhere_empty bd.where_ _ hdw, hallow, hdl]
    simp [newArgBuilder]

/-- Witness for C1: a one-SET update on table `users` without the opt-in
fails with the guard error, and a delete with the opt-in compiles to the
bare `DELETE FROM` statement. -/
theorem c1_witness :
    (UpdateBuilder.mk .mysql ("users").data [⟨("name").data, .val (GoVal.atom 1)⟩]
        ⟨.mysql, [], none⟩ none false none).SQL =
      .error "corm: update without where clause is not allowed, use AllowEmptyWhere() to override" ∧
    (DeleteBuilder.mk .mysql ("users").data ⟨.mysql, [], none⟩ true none none).SQL =
      .ok (("DELETE FROM ").data ++ Dialect.mysql.QuoteIdent ("users").data, []) := by
  have h := c1_update_delete_empty_where_guard
    (UpdateBuilder.mk .mysql ("users").data [⟨("name").data, .val (GoVal.atom 1)⟩]
      ⟨.mysql, [], none⟩ none false none)
    (DeleteBuilder.mk .mysql ("users").data ⟨.mysql, [], none⟩ true none none)
    (Dialect.mysql.QuoteIdent ("users").data) (Dialect.mysql.QuoteIdent ("users").data)
    rfl rfl (by decide) rfl (by simp)
    (by
      intro s hs
      simp only [List.mem_singleton] at hs
      subst hs
      exact ⟨by decide, ⟨GoVal.atom 1, rfl⟩⟩)
    rfl rfl rfl (by decide) rfl rfl
  exact ⟨h.1 rfl, h.2.2.2 rfl⟩

/-! ## Claim C9 -/

/-- Looking a key up in an association list with distinct keys is invariant
under permutation of the entries. -/
lemma lookupOpt_perm (k : List Char) :
    ∀ {l1 l2 : List (List Char × GoVal)}, l1.Perm l2 → (l1.map Prod.fst).Nodup →
    lookupOpt l1 k = lookupOpt l2 k := by
  intro l1 l2 hp
  induction hp with
  | nil => intro _; rfl
  | cons x hp ih =>
    intro hn
    obtain ⟨k', v⟩ := x
    rw [List.map_cons] at hn
    simp only [lookupOpt]
    by_cases hk : k' = k
    · subst hk
      rw [if_pos rfl, if_pos rfl]
    · simp only [hk, if_false]
      exact ih (List.nodup_cons.1 hn).2
  | swap x y t =>
    intro hn
    obtain ⟨kx, vx⟩ := x
    obtain ⟨ky, vy⟩ := y
    rw [List.map_cons, List.map_cons] at hn
    have hxy : ¬ ky = kx := by
      have h1 := (List.nodup_cons.1 hn).1
      intro hcontra
      exact h1 (by rw [hcontra]; exact List.mem_cons_self _ _)
    simp only [lookupOpt]
    by_cases h1 : ky = k
    · by_cases h2 : kx = k
      · exact absurd (h1.trans h2.symm) hxy
      · rw [if_pos h1, if_neg h2, if_pos h1]
    · by_cases h2 : kx = k
      · rw [if_neg h1, if_pos h2, if_pos h2]
      · rw [if_neg h1, if_neg h2, if_neg h2, if_neg h1]
  | trans hp1 hp2 ih1 ih2 =>
    intro hn
    have hn2 := ((hp1.map Prod.fst).nodup_iff).1 hn
    exact (ih1 hn).trans (ih2 hn2)

/-- `lookupVal` version of `lookupOpt_perm`. -/
lemma lookupVal_perm (k : List Char) {l1 l2 : List (List Char × GoVal)}
    (hp : l1.Perm l2) (hn : (l1.map Prod.fst).Nodup) :
    lookupVal l1 k = lookupVal l2 k := by
  unfold lookupVal
  rw [lookupOpt_perm k hp hn]

/-- Sorting is invariant under permutation of the input: the sorted key
list of a map does not depend on iteration order. -/
lemma sortStrings_perm_eq {l1 l2 : List (List Char)} (hp : l1.Perm l2) :
    sortStrings l1 = sortStrings l2 := by
  unfold sortStrings
  exact @List.eq_of_perm_of_sorted (List Char) (fun a b => a ≤ b) _ _ _
    ((List.perm_insertionSort _ l1).trans (hp.trans (List.perm_insertionSort _ l2).symm))
    (List.sorted_insertionSort _ l1) (List.sorted_insertionSort _ l2)

/-- The UPDATE map loop depends on the map only through key lookups. -/
lemma updateMapLoop_congr (keys : List (List Char)) :
    ∀ (b : UpdateBuilder) (v1 v2 : List (List Char × GoVal)),
    (∀ k, lookupVal v1 k = lookupVal v2 k) →
    updateMapLoop b keys v1 = updateMapLoop b keys v2 := by
  induction keys with
  | nil => intro b v1 v2 _; rfl
  | cons k ks ih =>
    intro b v1 v2 hl
    simp only [updateMapLoop]
    cases hq : quoteColumnStrict b.d k with
    | none => rfl
    | some col => rw [hl k]; exact ih _ _ _ hl

/-- The INSERT map loop depends on the map only through key lookups. -/
lemma insertMapLoop_congr (keys : List (List Char)) :
    ∀ (b : InsertBuilder) (row : List GoVal) (v1 v2 : List (List Char × GoVal)),
    (∀ k, lookupVal v1 k = lookupVal v2 k) →
    insertMapLoop b row keys v1 = insertMapLoop b row keys v2 := by
  induction keys with
  | nil => intro b row v1 v2 _; rfl
  | cons k ks ih =>
    intro b row v1 v2 hl
    simp only [insertMapLoop]
    cases hq : quoteColumnStrict b.d k with
    | none => rfl
    | some col => rw [hl k]; exact ih _ _ _ _ hl

/-- The WHERE map loop depends on the map only through key lookups. -/
lemma whereMapLoop_congr (keys : List (List Char)) :
    ∀ (wb : WhereBuilder) (v1 v2 : List (List Char × GoVal)),
    (∀ k, lookupVal v1 k = lookupVal v2 k) →
    whereMapLoop wb keys v1 = whereMapLoop wb keys v2 := by
  induction keys with
  | nil => intro wb v1 v2 _; rfl
  | cons k ks ih =>
    intro wb v1 v2 hl
    simp only [whereMapLoop]
    cases hq : quoteColumnStrict wb.d k with
    | none => rfl
    | some col => rw [hl k]; exact ih _ _ _ hl

/-- C9 (amended): the sorting map-sourced variants — `UpdateBuilder.Map`,
`InsertBuilder.Map` without a predeclared column list, and
`whereBuilder.WhereMap` — produce identical builder state (hence identical
generated SQL and argument order) for any two iteration orders of the same
logical map.  (The legacy `UpdateBuilder.SetMap` is *not* invariant: see
the counterexample.) -/
theorem c9_sorted_map_variants_deterministic (bu : UpdateBuilder) (bi : InsertBuilder)
    (wb : WhereBuilder) (v1 v2 : List (List Char × GoVal))
    (hp : v1.Perm v2) (hn : (v1.map Prod.fst).Nodup) (hcols : bi.columns = []) :
    bu.Map v1 = bu.Map v2 ∧ bi.Map v1 = bi.Map v2 ∧ wb.WhereMap v1 = wb.WhereMap v2 := by
  have hkeys : sortStrings (v1.map fun kv => kv.1) = sortStrings (v2.map fun kv => kv.1) :=
    sortStrings_perm_eq (hp.map _)
  have hl : ∀ k, lookupVal v1 k = lookupVal v2 k := fun k => lookupVal_perm k hp hn
  have hemp : v1.isEmpty = v2.isEmpty := by
    rcases v1 with _ | _ <;> rcases v2 with _ | _ <;>
      first
        | rfl
        | exact absurd hp.length_eq (by simp)
  refine ⟨?_, ?_, ?_⟩
  · unfold UpdateBuilder.Map
    rw [hkeys]
    by_cases he : bu.err.isSome
    · simp [he]
    · simp only [he, Bool.false_eq_true, if_false]
      exact updateMapLoop_congr _ bu v1 v2 hl
  · unfold InsertBuilder.Map
    rw [hkeys, hemp, hcols]
    by_cases he : bi.err.isSome
    · simp [he]
    · by_cases hv : v2.isEmpty
      · simp [he, hv]
      · simp only [he, hv, Bool.false_eq_true, if_false, List.isEmpty_nil, not_true,
          List.isEmpty_iff]
        exact insertMapLoop_congr _ bi [] v1 v2 hl
  · unfold WhereBuilder.WhereMap
    rw [hkeys]
    by_cases he : wb.err.isSome
    · simp [he]
    · simp only [he, Bool.false_eq_true, if_false]
      exact whereMapLoop_congr _ wb v1 v2 hl

/-- Witness for C9 at a concrete map: the two iteration orders of
`{a: 1, b: 2}` give the same `UpdateBuilder.Map` result. -/
theorem c9_witness :
    (UpdateBuilder.mk .mysql ("t").data [] ⟨.mysql, [], none⟩ none false none).Map
        [(("a").data, GoVal.atom 1), (("b").data, GoVal.atom 2)] =
      (UpdateBuilder.mk .mysql ("t").data [] ⟨.mysql, [], none⟩ none false none).Map
        [(("b").data, GoVal.atom 2), (("a").data, GoVal.atom 1)] := by
  have h := c9_sorted_map_variants_deterministic
    (UpdateBuilder.mk .mysql ("t").data [] ⟨.mysql, [], none⟩ none false none)
    (InsertBuilder.mk .mysql ("t").data [] [] none)
    (WhereBuilder.mk .mysql [] none)
    [(("a").data, GoVal.atom 1), (("b").data, GoVal.atom 2)]
    [(("b").data, GoVal.atom 2), (("a").data, GoVal.atom 1)]
    (List.Perm.swap (("b").data, GoVal.atom 2) (("a").data, GoVal.atom 1) [])
    (by decide) rfl
  exact h.1

/-- Counterexample to C9 as stated: the legacy `UpdateBuilder.SetMap`
applies the map's entries in iteration order, so the two iteration orders
of the same logical map `{a: 1, b: 2}` produce different generated SQL
text (`... SET `a` = ?, `b` = ?` versus `... SET `b` = ?, `a` = ?`). -/
theorem c9_counterexample :
    ((UpdateBuilderLegacy.mk .mysql ("t").data [] [] none).SetMap
        [(("a").data, GoVal.atom 1), (("b").data, GoVal.atom 2)]).SQL.toOption.map Prod.fst ≠
      ((UpdateBuilderLegacy.mk .mysql ("t").data [] [] none).SetMap
        [(("b").data, GoVal.atom 2), (("a").data, GoVal.atom 1)]).SQL.toOption.map Prod.fst := by
  decide


/-! ## Claim C2 -/

lemma usesQ_mysql (a : ArgBuilderState) (h : a.d = .mysql) :
    usesQuestionPlaceholders a = true := by
  unfold usesQuestionPlaceholders
  rw [h]
  decide

lemma usesQ_postgres (a : ArgBuilderState) (h : a.d = .postgres) :
    usesQuestionPlaceholders a = false := by
  unfold usesQuestionPlaceholders
  rw [h]
  decide

/-- A positive normal-mode marker count implies a marker byte is
present. -/
lemma countQP_pos_contains {sql : List Char} {esc : Bool}
    (h : ¬ countQuestionPlaceholders sql esc = 0) : sql.contains '?' = true := by
  unfold countQuestionPlaceholders at h
  by_cases hc : sql.contains '?' = true
  · exact hc
  · rw [if_neg hc] at h
    exact absurd rfl h

lemma exceptIsOk_ok {r : Except String (List Char × Nat)} (h : exceptIsOk r = true) :
    ∃ v, r = .ok v := by
  cases r with
  | error e => exact absurd h (by simp [exceptIsOk])
  | ok v => exact ⟨v, rfl⟩

/-- C2 (amended): the placeholder round trip.  Provided the fragment fits
the 1MB cap (both as written and, for the numbered dialect, after
rewriting) and, for the numbered dialect, the rewrite does not hit the
jsonb-operator conflict: if the normal-mode marker count `k` of the
(leading-space-stripped) text equals the argument count, `appendExpr`
succeeds, appending the arguments and advancing the placeholder index by
exactly `k` (one dialect placeholder per counted marker); if the counts
differ while the fragment's text and argument list are both nonempty,
`appendExpr` fails — with the count-mismatch error when a marker byte is
present anywhere in the text, and with the missing-placeholders error
when none is. -/
theorem c2_placeholder_count_round_trip (a : ArgBuilderState) (e : Expr)
    (hcap : a.buf.length + (stripLeadingSpace e.sql).length ≤ maxSQLLength)
    (hcap2 : a.buf.length +
      rewrittenLength (rewritePostgresQuestionPlaceholders (stripLeadingSpace e.sql) a.idx false) ≤
        maxSQLLength)
    (hpg : a.d = .postgres →
      exceptIsOk (rewritePostgresQuestionPlaceholders (stripLeadingSpace e.sql) a.idx false) =
        true) :
    (countQuestionPlaceholders (stripLeadingSpace e.sql) (a.d.Name = "mysql") = e.args.length →
      ∃ out, appendExpr a e =
        .ok ⟨a.d, a.idx + e.args.length, a.args ++ e.args, a.buf ++ out⟩) ∧
    (¬ countQuestionPlaceholders (stripLeadingSpace e.sql) (a.d.Name = "mysql") = e.args.length →
      ¬ e.args = [] → ¬ stripLeadingSpace e.sql = [] →
      appendExpr a e = .error
        (if (stripLeadingSpace e.sql).contains '?' = true then
          errMismatch e.args.length
            (countQuestionPlaceholders (stripLeadingSpace e.sql) (a.d.Name = "mysql"))
        else errMissingPlaceholders)) := by
  have hcap' : ¬ a.buf.length + (stripLeadingSpace e.sql).length > maxSQLLength := by omega
  constructor
  · intro hk
    by_cases hempty : (stripLeadingSpace e.sql).isEmpty = true
    · have hsql0 : stripLeadingSpace e.sql = [] := by
        simpa [List.isEmpty_iff] using hempty
      have hargs : e.args = [] := by
        refine List.length_eq_zero.1 ?_
        rw [← hk, hsql0]
        rfl
      refine ⟨[], ?_⟩
      simp only [appendExpr]
      rw [if_pos hempty, hargs]
      simp
    · by_cases hargse : e.args.isEmpty = true
      · have hargs0 : e.args = [] := by simpa [List.isEmpty_iff] using hargse
        refine ⟨stripLeadingSpace e.sql, ?_⟩
        simp only [appendExpr]
        rw [if_neg hempty, if_neg hcap', if_pos hargse, hargs0]
        simp
      · have hargsne : ¬ e.args = [] := by simpa [List.isEmpty_iff] using hargse
        have hlenpos : ¬ e.args.length = 0 := by
          simpa [List.length_eq_zero] using hargsne
        have hcont : (stripLeadingSpace e.sql).contains '?' = true := by
          apply countQP_pos_contains
          rw [hk]
          exact hlenpos
        cases hd : a.d with
        | mysql =>
          refine ⟨stripLeadingSpace e.sql, ?_⟩
          simp only [appendExpr]
          rw [if_neg hempty, if_neg hcap', if_neg hargse, if_neg (not_not_intro hcont),
            if_pos (usesQ_mysql a hd), if_neg (fun h => h hk)]
          rw [hd]
        | postgres =>
          obtain ⟨v, hr⟩ := exceptIsOk_ok (hpg hd)
          obtain ⟨out, next⟩ := v
          have hnext := rewritePlaceholdersCommon_ok_next (stripLeadingSpace e.sql) a.idx
            out next hr
          have hkpg : countQuestionPlaceholders (stripLeadingSpace e.sql) false =
              e.args.length := by
            rw [← hk]
            congr 1
            rw [hd]
            rfl
          have hsub : next - a.idx = e.args.length := by
            rw [hkpg] at hnext
            omega
          refine ⟨out, ?_⟩
          simp only [appendExpr]
          rw [if_neg hempty, if_neg hcap', if_neg hargse, if_neg (not_not_intro hcont),
            if_neg (by simp [usesQ_postgres a hd]), if_pos (by rw [hd]; rfl), hr]
          dsimp only
          rw [if_neg (fun h => h hsub)]
          rw [if_neg (by rw [hr] at hcap2; simp [rewrittenLength] at hcap2; omega)]
          rw [show next = a.idx + e.args.length from by rw [hkpg] at hnext; omega]
          rw [hd]
  · intro hk hargsne hsqlne
    have hempty : ¬ ((stripLeadingSpace e.sql).isEmpty = true) := by
      simpa [List.isEmpty_iff] using hsqlne
    have hargse : ¬ (e.args.isEmpty = true) := by
      simpa [List.isEmpty_iff] using hargsne
    by_cases hcont : (stripLeadingSpace e.sql).contains '?' = true
    · rw [if_pos hcont]
      cases hd : a.d with
      | mysql =>
        simp only [appendExpr]
        rw [if_neg hempty, if_neg hcap', if_neg hargse, if_neg (not_not_intro hcont),
          if_pos (usesQ_mysql a hd), if_pos hk]
        rw [hd]
      | postgres =>
        obtain ⟨v, hr⟩ := exceptIsOk_ok (hpg hd)
        obtain ⟨out, next⟩ := v
        have hnext := rewritePlaceholdersCommon_ok_next (stripLeadingSpace e.sql) a.idx
          out next hr
        have hkpg : countQuestionPlaceholders (stripLeadingSpace e.sql) false =
            countQuestionPlaceholders (stripLeadingSpace e.sql) (a.d.Name = "mysql") := by
          congr 1
          rw [hd]
          rfl
        have hsub : next - a.idx =
            countQuestionPlaceholders (stripLeadingSpace e.sql) (a.d.Name = "mysql") := by
          rw [hkpg] at hnext
          omega
        simp only [appendExpr]
        rw [if_neg hempty, if_neg hcap', if_neg hargse, if_neg (not_not_intro hcont),
          if_neg (by simp [usesQ_postgres a hd]), if_pos (by rw [hd]; rfl), hr]
        dsimp only
        rw [if_pos (fun h => absurd hsub (by rw [h]; exact fun h2 => hk h2.symm))]
        rw [hsub, hd]
    · rw [if_neg hcont]
      simp only [appendExpr]
      rw [if_neg hempty, if_neg hcap', if_neg hargse, if_pos hcont]

/-- Witness for C2: on the concrete fragment "id = ?" with one argument the
postgres path succeeds with index advanced by one, and with two arguments
the mysql path fails with the count-mismatch error. -/
theorem c2_witness :
    (∃ out, appendExpr (newArgBuilder Dialect.postgres) ⟨("id = ?").data, [GoVal.atom 7]⟩ =
      .ok ⟨Dialect.postgres, 1 + 1, [] ++ [GoVal.atom 7], [] ++ out⟩) ∧
    appendExpr (newArgBuilder Dialect.mysql) ⟨("id = ?").data, [GoVal.atom 7, GoVal.atom 8]⟩ =
      .error (errMismatch 2 1) :=
  ⟨(c2_placeholder_count_round_trip (newArgBuilder Dialect.postgres)
      ⟨("id = ?").data, [GoVal.atom 7]⟩ (by decide) (by decide) (fun _ => by decide)).1
      (by decide),
   (c2_placeholder_count_round_trip (newArgBuilder Dialect.mysql)
      ⟨("id = ?").data, [GoVal.atom 7, GoVal.atom 8]⟩ (by decide) (by decide)
      (fun _ => by decide)).2 (by decide) (List.cons_ne_nil _ _) (by decide)⟩

/-- Counterexample for C2: a fragment whose text contains one normal-mode
marker but which carries no arguments does not produce the mismatch error;
`appendExpr` writes the text verbatim and succeeds with the builder state
otherwise unchanged. -/
theorem c2_counterexample :
    appendExpr (newArgBuilder Dialect.mysql) ⟨("id = ?").data, []⟩ =
      .ok ⟨Dialect.mysql, 1, [], ("id = ?").data⟩ ∧
    countQuestionPlaceholders (stripLeadingSpace ("id = ?").data) true = 1 :=
  ⟨rfl, rfl⟩

/-! ## Region lemmas: quoted literals, comments and dollar quotes are
opaque to the scanner -/

/-- Prepending nothing changes nothing. -/
lemma consOut_nil (r : Except String (List Char × Nat)) : consOut [] r = r := by
  cases r with
  | error e => rfl
  | ok p => cases p; rfl

/-- Sequential output writes compose by concatenation. -/
lemma consOut_consOut (a b : List Char) (r : Except String (List Char × Nat)) :
    consOut a (consOut b r) = consOut (a ++ b) r := by
  cases r with
  | error e => rfl
  | ok p =>
    cases p with
    | mk out next => simp [consOut, List.append_assoc]

/-- A prefix test fails when the heads differ. -/
lemma isPrefixOf_cons_ne {a b : Char} (as bs : List Char) (h : ¬ a = b) :
    (a :: as).isPrefixOf (b :: bs) = false := by
  rw [Bool.eq_false_iff]
  intro hc
  exact h (List.cons_prefix_cons.1 (List.isPrefixOf_iff_prefix.1 hc)).1

/-- Taking and dropping while a predicate holds, across a block that
satisfies it followed by a character that does not. -/
lemma takeWhile_all_append (p : Char → Bool) :
    ∀ (l : List Char) (c : Char) (t : List Char), l.all p = true → ¬ p c = true →
    (l ++ c :: t).takeWhile p = l ∧ (l ++ c :: t).dropWhile p = c :: t := by
  intro l
  induction l with
  | nil =>
    intro c t _ hc
    constructor
    · simp [List.takeWhile_cons, hc]
    · simp [List.dropWhile_cons, hc]
  | cons a l ih =>
    intro c t hall hc
    rw [List.all_cons, Bool.and_eq_true] at hall
    obtain ⟨hca, hl⟩ := hall
    obtain ⟨h1, h2⟩ := ih c t hl hc
    constructor
    · simp [List.takeWhile_cons, hca, h1]
    · simp [List.dropWhile_cons, hca, h2]

/-- Normal mode: a single quote opens a string literal. -/
lemma scanStep_normal_squote (esc : Bool) (s : List Char) :
    scanStep esc .normal ('\'' :: s) = (.singleQuote, 0, ['\''], s) := rfl

/-- Normal mode: a double quote opens a quoted identifier. -/
lemma scanStep_normal_dquote (esc : Bool) (s : List Char) :
    scanStep esc .normal ('"' :: s) = (.doubleQuote, 0, ['"'], s) := rfl

/-- Normal mode: a double dash opens a line comment. -/
lemma scanStep_normal_lc (esc : Bool) (s : List Char) :
    scanStep esc .normal ('-' :: '-' :: s) = (.lineComment, 0, ['-', '-'], s) := rfl

/-- Normal mode: a slash-star opens a block comment. -/
lemma scanStep_normal_bc (esc : Bool) (s : List Char) :
    scanStep esc .normal ('/' :: '*' :: s) = (.blockComment, 0, ['/', '*'], s) := rfl

/-- Normal mode: a dollar followed by a tag and a closing dollar opens a
dollar-quoted region remembering the tag. -/
lemma scanStep_normal_dollar_open (esc : Bool) (tag s : List Char)
    (htag : tag.all isTagChar = true) :
    scanStep esc .normal ('$' :: (tag ++ '$' :: s)) =
      (.dollar '$' (tag ++ ['$']), 0, '$' :: (tag ++ ['$']), s) := by
  obtain ⟨ht, hd⟩ := takeWhile_all_append isTagChar tag '$' s htag (by decide)
  have hstep : scanStep esc .normal ('$' :: (tag ++ '$' :: s)) =
      (match (tag ++ '$' :: s).dropWhile isTagChar with
       | '$' :: s' =>
         (ScanState.dollar '$' ((tag ++ '$' :: s).takeWhile isTagChar ++ ['$']), 0,
           '$' :: (tag ++ '$' :: s).takeWhile isTagChar ++ ['$'], s')
       | _ => (ScanState.normal, 0, ['$'], tag ++ '$' :: s)) := rfl
  rw [hstep, hd, ht]
  rfl

/-- In a single-quoted literal, a quote not followed by another quote
closes the literal. -/
lemma scanStep_squote_close (esc : Bool) (s : List Char) (h : ¬ s.head? = some '\'') :
    scanStep esc .singleQuote ('\'' :: s) = (.normal, 0, ['\''], s) := by
  cases esc <;> (unfold scanStep; repeat' split)
  all_goals try simp_all
  all_goals
    first
      | (rename_i heq hne; exact absurd heq.1.symm hne)
      | (rename_i heq hne1 hne2; exact absurd heq.1.symm hne1)
      | (rename_i heq hne1 hne2; exact absurd heq.1.symm hne2)
      | (rename_i hx hall; exact absurd hx.symm (hall _))
      | (rename_i hx hc hall; exact absurd hx.symm (hall _))

/-- In a single-quoted literal, an ordinary character is consumed. -/
lemma scanStep_squote_plain (esc : Bool) (c : Char) (s : List Char)
    (h1 : ¬ c = '\'') (h2 : esc = true → ¬ c = '\\') :
    scanStep esc .singleQuote (c :: s) = (.singleQuote, 0, [c], s) := by
  cases esc <;> (unfold scanStep; repeat' split)
  all_goals try simp_all
  all_goals
    first
      | (rename_i heq hne; exact absurd heq.1.symm hne)
      | (rename_i heq hne1 hne2; exact absurd heq.1.symm hne1)
      | (rename_i heq hne1 hne2; exact absurd heq.1.symm hne2)
      | (rename_i hx hall; exact absurd hx.symm (hall _))
      | (rename_i hx hc hall; exact absurd hx.symm (hall _))

/-- In a single-quoted literal with backslash escaping on, a backslash
consumes the following character as well. -/
lemma scanStep_squote_escaped (c : Char) (s : List Char) :
    scanStep true .singleQuote ('\\' :: c :: s) = (.singleQuote, 0, ['\\', c], s) := by
  unfold scanStep
  repeat' split
  all_goals try simp_all
  all_goals
    first
      | (rename_i heq hne; exact absurd heq.1.symm hne)
      | (rename_i heq hne1 hne2; exact absurd heq.1.symm hne1)
      | (rename_i heq hne1 hne2; exact absurd heq.1.symm hne2)
      | (rename_i hx hall; exact absurd hx.symm (hall _))
      | (rename_i hx hc hall; exact absurd hx.symm (hall _))

/-- In a single-quoted literal, a doubled quote is an escaped quote. -/
lemma scanStep_squote_doubled (esc : Bool) (s : List Char) :
    scanStep esc .singleQuote ('\'' :: '\'' :: s) = (.singleQuote, 0, ['\'', '\''], s) := by
  cases esc <;> (unfold scanStep; repeat' split)
  all_goals try simp_all
  all_goals
    first
      | (rename_i heq hne; exact absurd heq.1.symm hne)
      | (rename_i heq hne1 hne2; exact absurd heq.1.symm hne1)
      | (rename_i heq hne1 hne2; exact absurd heq.1.symm hne2)
      | (rename_i hx hall; exact absurd hx.symm (hall _))
      | (rename_i hx hc hall; exact absurd hx.symm (hall _))

/-- In a double-quoted identifier, a quote closes, anything else is
consumed. -/
lemma scanStep_dquote (esc : Bool) (c : Char) (s : List Char) :
    scanStep esc .doubleQuote (c :: s) =
      (if c = '"' then .normal else .doubleQuote, 0, [c], s) := rfl

/-- In a line comment, a newline closes, anything else is consumed. -/
lemma scanStep_lc (esc : Bool) (c : Char) (s : List Char) :
    scanStep esc .lineComment (c :: s) =
      (if c = '\n' then .normal else .lineComment, 0, [c], s) := rfl

/-- A star-slash closes a block comment. -/
lemma scanStep_bc_close (esc : Bool) (s : List Char) :
    scanStep esc .blockComment ('*' :: '/' :: s) = (.normal, 0, ['*', '/'], s) := rfl

/-- In a block comment, anything not starting a star-slash is consumed. -/
lemma scanStep_bc_other (esc : Bool) (c : Char) (s : List Char)
    (h : ¬ (c = '*' ∧ s.head? = some '/')) :
    scanStep esc .blockComment (c :: s) = (.blockComment, 0, [c], s) := by
  unfold scanStep
  repeat' split
  all_goals try simp_all
  all_goals
    first
      | (rename_i heq hne; exact absurd heq.1.symm hne)
      | (rename_i heq hne1 hne2; exact absurd heq.1.symm hne1)
      | (rename_i heq hne1 hne2; exact absurd heq.1.symm hne2)
      | (rename_i hx hall; exact absurd hx.symm (hall _))
      | (rename_i hx hc hall; exact absurd hx.symm (hall _))

/-- In a dollar-quoted region, a character other than a dollar never
matches the closing tag. -/
lemma scanStep_dollar_other (esc : Bool) (cs : List Char) (d : Char) (s : List Char)
    (h : ¬ d = '$') :
    scanStep esc (.dollar '$' cs) (d :: s) = (.dollar '$' cs, 0, [d], s) := by
  have hp : ('$' :: cs).isPrefixOf (d :: s) = false :=
    isPrefixOf_cons_ne cs s (fun hc => h hc.symm)
  have hstep : scanStep esc (.dollar '$' cs) (d :: s) =
      (if ('$' :: cs).isPrefixOf (d :: s) then
        (ScanState.normal, 0, '$' :: cs, (d :: s).drop (cs.length + 1))
      else (ScanState.dollar '$' cs, 0, [d], s)) := rfl
  rw [hstep, if_neg (by simp [hp])]

/-- The stored closing tag, when present, closes the dollar-quoted
region. -/
lemma scanStep_dollar_close (esc : Bool) (tag rest : List Char) :
    scanStep esc (.dollar '$' (tag ++ ['$'])) ('$' :: (tag ++ '$' :: rest)) =
      (.normal, 0, '$' :: (tag ++ ['$']), rest) := by
  have hpre : ('$' :: (tag ++ ['$'])).isPrefixOf ('$' :: (tag ++ '$' :: rest)) = true := by
    apply List.isPrefixOf_iff_prefix.2
    refine ⟨rest, ?_⟩
    simp
  have hd : ('$' :: (tag ++ '$' :: rest)).drop ((tag ++ ['$']).length + 1) = rest := by
    rw [show ('$' :: (tag ++ '$' :: rest)) = ('$' :: (tag ++ ['$'])) ++ rest by simp,
      ← List.length_cons, List.drop_left]
  have hstep : scanStep esc (.dollar '$' (tag ++ ['$'])) ('$' :: (tag ++ '$' :: rest)) =
      (if ('$' :: (tag ++ ['$'])).isPrefixOf ('$' :: (tag ++ '$' :: rest)) then
        (ScanState.normal, 0, '$' :: (tag ++ ['$']),
          ('$' :: (tag ++ '$' :: rest)).drop ((tag ++ ['$']).length + 1))
      else (ScanState.dollar '$' (tag ++ ['$']), 0, ['$'], tag ++ '$' :: rest)) := rfl
  rw [hstep, if_pos hpre, hd]

/-- Opaque spans concatenate. -/
lemma ScanEats.append (esc : Bool) {st1 st2 st3 : ScanState} {p1 p2 : List Char}
    (h1 : ScanEats esc st1 p1 st2) :
    ScanEats esc st2 p2 st3 → ScanEats esc st1 (p1 ++ p2) st3 := by
  induction h1 with
  | refl st =>
    intro h2
    exact h2
  | step st st1 st2 chunk pre hne hstep htail ih =>
    intro h2
    have hrec := ih h2
    have hshape : (chunk ++ pre) ++ p2 = chunk ++ (pre ++ p2) := by simp
    rw [hshape]
    refine ScanEats.step st st1 st3 chunk (pre ++ p2) hne ?_ hrec
    intro rest
    have h4 := hstep (p2 ++ rest)
    have h5 : pre ++ (p2 ++ rest) = (pre ++ p2) ++ rest := by simp
    rw [h5] at h4
    exact h4

/-- Counting across an opaque span: the span contributes no markers and
the count continues behind it from the final mode. -/
lemma countAux_eats (esc : Bool) {st st2 : ScanState} {pre : List Char}
    (h : ScanEats esc st pre st2) :
    ∀ (rest : List Char) (fuel : Nat), pre.length + rest.length ≤ fuel →
    countAux esc fuel st (pre ++ rest) = countAux esc rest.length st2 rest := by
  induction h with
  | refl st =>
    intro rest fuel hf
    have hf' : rest.length ≤ fuel := by simpa using hf
    rw [List.nil_append]
    exact countAux_fuel esc rest.length fuel rest.length st rest le_rfl hf' le_rfl
  | step st st1 st2 chunk pre hne hstep htail ih =>
    intro rest fuel hf
    rcases chunk with _ | ⟨c, ch⟩
    · exact absurd rfl hne
    rcases fuel with _ | f
    · exfalso
      simp [List.length_append] at hf
    have hfle : pre.length + rest.length ≤ f := by
      simp only [List.length_append, List.length_cons] at hf
      omega
    have hin : ((c :: ch) ++ pre) ++ rest = c :: (ch ++ (pre ++ rest)) := by simp
    rw [hin, countAux_cons]
    have hs := hstep rest
    have hcc : (c :: ch) ++ (pre ++ rest) = c :: (ch ++ (pre ++ rest)) := by simp
    rw [hcc] at hs
    rw [hs]
    dsimp only
    rw [ih rest f hfle]
    rfl

/-- Rewriting across an opaque span: the span is emitted verbatim, the
placeholder index is untouched, and rewriting continues behind it from
the final mode. -/
lemma rewriteCommonAux_eats (isPg : Bool) {st st2 : ScanState} {pre : List Char}
    (h : ScanEats (!isPg) st pre st2) :
    ∀ (rest : List Char) (next fuel : Nat), pre.length + rest.length ≤ fuel →
    rewriteCommonAux isPg fuel st next (pre ++ rest) =
      consOut pre (rewriteCommonAux isPg rest.length st2 next rest) := by
  induction h with
  | refl st =>
    intro rest next fuel hf
    have hf' : rest.length ≤ fuel := by simpa using hf
    rw [List.nil_append, consOut_nil]
    exact rewriteCommonAux_fuel isPg rest.length fuel rest.length st next rest le_rfl hf' le_rfl
  | step st st1 st2 chunk pre hne hstep htail ih =>
    intro rest next fuel hf
    rcases chunk with _ | ⟨c, ch⟩
    · exact absurd rfl hne
    rcases fuel with _ | f
    · exfalso
      simp [List.length_append] at hf
    have hfle : pre.length + rest.length ≤ f := by
      simp only [List.length_append, List.length_cons] at hf
      omega
    have hin : ((c :: ch) ++ pre) ++ rest = c :: (ch ++ (pre ++ rest)) := by simp
    rw [hin, rewriteCommonAux_cons]
    have hs := hstep rest
    have hcc : (c :: ch) ++ (pre ++ rest) = c :: (ch ++ (pre ++ rest)) := by simp
    rw [hcc] at hs
    rw [hs]
    dsimp only
    rw [if_neg (by decide), ih rest next f hfle, consOut_consOut]

/-- A well-formed single-quoted literal body is consumed verbatim,
staying in single-quote mode. -/
lemma sq_body_eats (esc : Bool) :
    ∀ (units : List LitUnit), (∀ u ∈ units, goodUnit esc u = true) →
    ScanEats esc .singleQuote (litBody units) .singleQuote := by
  intro units
  induction units with
  | nil =>
    intro _
    exact ScanEats.refl .singleQuote
  | cons u us ih =>
    intro hall
    have hu : goodUnit esc u = true := hall u (List.mem_cons_self u us)
    have hus := ih fun v hv => hall v (List.mem_cons_of_mem u hv)
    cases u with
    | plain c =>
      have hu' : ¬ c = '\'' ∧ (esc = false ∨ ¬ c = '\\') := by
        simpa [goodUnit] using hu
      refine ScanEats.step .singleQuote .singleQuote .singleQuote [c] (litBody us)
        (by simp) ?_ hus
      intro rest
      exact scanStep_squote_plain esc c _ hu'.1
        (fun he => hu'.2.resolve_left (by simp [he]))
    | escaped c =>
      have hesc : esc = true := by simpa [goodUnit] using hu
      subst hesc
      refine ScanEats.step .singleQuote .singleQuote .singleQuote ['\\', c] (litBody us)
        (by simp) ?_ hus
      intro rest
      exact scanStep_squote_escaped c _
    | doubled =>
      refine ScanEats.step .singleQuote .singleQuote .singleQuote ['\'', '\''] (litBody us)
        (by simp) ?_ hus
      intro rest
      exact scanStep_squote_doubled esc _

/-- A double-quoted identifier body followed by its closing quote is
consumed verbatim, returning to normal mode. -/
lemma dq_eats (esc : Bool) :
    ∀ (body : List Char), '"' ∉ body →
    ScanEats esc .doubleQuote (body ++ ['"']) .normal := by
  intro body
  induction body with
  | nil =>
    intro _
    refine ScanEats.step .doubleQuote .normal .normal ['"'] [] (by simp) ?_
      (ScanEats.refl .normal)
    intro rest
    have h1 := scanStep_dquote esc '"' ([] ++ rest)
    rw [if_pos rfl] at h1
    exact h1
  | cons b bs ih =>
    intro hnb
    have hb : ¬ b = '"' := fun hc => hnb (hc ▸ List.mem_cons_self b bs)
    have htail := ih fun hc => hnb (List.mem_cons_of_mem b hc)
    have hshape : (b :: bs) ++ ['"'] = [b] ++ (bs ++ ['"']) := by simp
    rw [hshape]
    refine ScanEats.step .doubleQuote .doubleQuote .normal [b] (bs ++ ['"']) (by simp) ?_ htail
    intro rest
    have h1 := scanStep_dquote esc b (bs ++ ['"'] ++ rest)
    rw [if_neg hb] at h1
    exact h1

/-- A line-comment body followed by its closing newline is consumed
verbatim, returning to normal mode. -/
lemma lc_eats (esc : Bool) :
    ∀ (body : List Char), '\n' ∉ body →
    ScanEats esc .lineComment (body ++ ['\n']) .normal := by
  intro body
  induction body with
  | nil =>
    intro _
    refine ScanEats.step .lineComment .normal .normal ['\n'] [] (by simp) ?_
      (ScanEats.refl .normal)
    intro rest
    have h1 := scanStep_lc esc '\n' ([] ++ rest)
    rw [if_pos rfl] at h1
    exact h1
  | cons b bs ih =>
    intro hnb
    have hb : ¬ b = '\n' := fun hc => hnb (hc ▸ List.mem_cons_self b bs)
    have htail := ih fun hc => hnb (List.mem_cons_of_mem b hc)
    have hshape : (b :: bs) ++ ['\n'] = [b] ++ (bs ++ ['\n']) := by simp
    rw [hshape]
    refine ScanEats.step .lineComment .lineComment .normal [b] (bs ++ ['\n']) (by simp) ?_ htail
    intro rest
    have h1 := scanStep_lc esc b (bs ++ ['\n'] ++ rest)
    rw [if_neg hb] at h1
    exact h1

/-- A block-comment body (containing no star-slash) followed by its
closing star-slash is consumed verbatim, returning to normal mode. -/
lemma bc_eats (esc : Bool) :
    ∀ (body : List Char), ¬ ['*', '/'] <:+: body →
    ScanEats esc .blockComment (body ++ ['*', '/']) .normal := by
  intro body
  induction body with
  | nil =>
    intro _
    refine ScanEats.step .blockComment .normal .normal ['*', '/'] [] (by simp) ?_
      (ScanEats.refl .normal)
    intro rest
    exact scanStep_bc_close esc _
  | cons b bs ih =>
    intro hinf
    have htail := ih fun hc => hinf (hc.trans (List.suffix_cons b bs).isInfix)
    have hshape : (b :: bs) ++ ['*', '/'] = [b] ++ (bs ++ ['*', '/']) := by simp
    rw [hshape]
    refine ScanEats.step .blockComment .blockComment .normal [b] (bs ++ ['*', '/'])
      (by simp) ?_ htail
    intro rest
    apply scanStep_bc_other
    rintro ⟨hb, hh⟩
    subst hb
    rcases bs with _ | ⟨b1, bs'⟩
    · simp at hh
    · simp at hh
      subst hh
      exact hinf ⟨[], bs', by simp⟩

/-- A dollar-quoted body containing no dollar never matches the stored
closing tag. -/
lemma dollar_body_eats (esc : Bool) (cs : List Char) :
    ∀ (body : List Char), '$' ∉ body →
    ScanEats esc (.dollar '$' cs) body (.dollar '$' cs) := by
  intro body
  induction body with
  | nil =>
    intro _
    exact ScanEats.refl _
  | cons b bs ih =>
    intro hnb
    have hb : ¬ b = '$' := fun hc => hnb (hc ▸ List.mem_cons_self b bs)
    have htail := ih fun hc => hnb (List.mem_cons_of_mem b hc)
    refine ScanEats.step (.dollar '$' cs) (.dollar '$' cs) (.dollar '$' cs) [b] bs
      (by simp) ?_ htail
    intro rest
    exact scanStep_dollar_other esc cs b _ hb

/-- A complete double-quoted identifier is opaque from normal mode. -/
lemma dq_full (esc : Bool) (body : List Char) (hb : '"' ∉ body) :
    ScanEats esc .normal ('"' :: (body ++ ['"'])) .normal := by
  refine ScanEats.step .normal .doubleQuote .normal ['"'] (body ++ ['"']) (by simp) ?_
    (dq_eats esc body hb)
  intro rest
  exact scanStep_normal_dquote esc _

/-- A complete line comment is opaque from normal mode. -/
lemma lc_full (esc : Bool) (body : List Char) (hb : '\n' ∉ body) :
    ScanEats esc .normal ('-' :: '-' :: (body ++ ['\n'])) .normal := by
  refine ScanEats.step .normal .lineComment .normal ['-', '-'] (body ++ ['\n']) (by simp) ?_
    (lc_eats esc body hb)
  intro rest
  exact scanStep_normal_lc esc _

/-- A complete block comment is opaque from normal mode. -/
lemma bc_full (esc : Bool) (body : List Char) (hb : ¬ ['*', '/'] <:+: body) :
    ScanEats esc .normal ('/' :: '*' :: (body ++ ['*', '/'])) .normal := by
  refine ScanEats.step .normal .blockComment .normal ['/', '*'] (body ++ ['*', '/'])
    (by simp) ?_ (bc_eats esc body hb)
  intro rest
  exact scanStep_normal_bc esc _

/-- A complete dollar-quoted region is opaque from normal mode. -/
lemma dollar_full (esc : Bool) (tag body : List Char)
    (htag : tag.all isTagChar = true) (hb : '$' ∉ body) :
    ScanEats esc .normal
      (('$' :: (tag ++ ['$'])) ++ (body ++ ('$' :: (tag ++ ['$'])))) .normal := by
  have hclose : ScanEats esc (.dollar '$' (tag ++ ['$'])) ('$' :: (tag ++ ['$'])) .normal := by
    have h3 : ('$' :: (tag ++ ['$'])) = ('$' :: (tag ++ ['$'])) ++ ([] : List Char) := by simp
    rw [h3]
    refine ScanEats.step (.dollar '$' (tag ++ ['$'])) .normal .normal
      ('$' :: (tag ++ ['$'])) [] (by simp) ?_ (ScanEats.refl .normal)
    intro rest
    have h4 : ('$' :: (tag ++ ['$'])) ++ ([] ++ rest) = '$' :: (tag ++ '$' :: rest) := by simp
    rw [h4, scanStep_dollar_close]
    simp
  have hbody := dollar_body_eats esc (tag ++ ['$']) body hb
  refine ScanEats.step .normal (.dollar '$' (tag ++ ['$'])) .normal
    ('$' :: (tag ++ ['$'])) (body ++ ('$' :: (tag ++ ['$']))) (by simp) ?_
    (ScanEats.append esc hbody hclose)
  intro rest
  have h2 : ('$' :: (tag ++ ['$'])) ++ ((body ++ ('$' :: (tag ++ ['$']))) ++ rest) =
      '$' :: (tag ++ '$' :: ((body ++ ('$' :: (tag ++ ['$']))) ++ rest)) := by simp
  rw [h2]
  exact scanStep_normal_dollar_open esc tag _ htag

/-- An opaque span is skipped by both compilation loops: it adds no
marker to the count, and it is emitted verbatim with the placeholder
index untouched. -/
lemma region_skip (isPg : Bool) (pre rest : List Char) (next : Nat)
    (h : ScanEats (!isPg) .normal pre .normal) :
    countAux (!isPg) ((pre ++ rest).length) .normal (pre ++ rest) =
      countAux (!isPg) rest.length .normal rest ∧
    rewriteCommonAux isPg ((pre ++ rest).length) .normal next (pre ++ rest) =
      consOut pre (rewriteCommonAux isPg rest.length .normal next rest) :=
  ⟨countAux_eats (!isPg) h rest (pre ++ rest).length (by simp),
   rewriteCommonAux_eats isPg h rest next (pre ++ rest).length (by simp)⟩

/-- A complete single-quoted literal is skipped by both loops, provided
the following character does not extend it as a doubled quote. -/
lemma sq_skip (isPg : Bool) (units : List LitUnit) (rest : List Char) (next : Nat)
    (hunits : ∀ u ∈ units, goodUnit (!isPg) u = true)
    (hrest : ¬ rest.head? = some '\'') :
    countAux (!isPg) ((('\'' :: (litBody units ++ ['\''])) ++ rest).length) .normal
        (('\'' :: (litBody units ++ ['\''])) ++ rest) =
      countAux (!isPg) rest.length .normal rest ∧
    rewriteCommonAux isPg ((('\'' :: (litBody units ++ ['\''])) ++ rest).length) .normal next
        (('\'' :: (litBody units ++ ['\''])) ++ rest) =
      consOut ('\'' :: (litBody units ++ ['\'']))
        (rewriteCommonAux isPg rest.length .normal next rest) := by
  have hform : ('\'' :: (litBody units ++ ['\''])) ++ rest =
      '\'' :: (litBody units ++ '\'' :: rest) := by simp
  have heats := sq_body_eats (!isPg) units hunits
  have hstep1 := scanStep_normal_squote (!isPg) (litBody units ++ '\'' :: rest)
  have hstep2 := scanStep_squote_close (!isPg) rest hrest
  have hcount2 : countAux (!isPg) (rest.length + 1) .singleQuote ('\'' :: rest) =
      countAux (!isPg) rest.length .normal rest := by
    rw [countAux_cons, hstep2]
    rfl
  have hcount1 : countAux (!isPg) ((litBody units ++ '\'' :: rest).length) .singleQuote
      (litBody units ++ '\'' :: rest) =
      countAux (!isPg) (('\'' :: rest).length) .singleQuote ('\'' :: rest) :=
    countAux_eats (!isPg) heats ('\'' :: rest) _ (by simp)
  have hrw2 : rewriteCommonAux isPg (rest.length + 1) .singleQuote next ('\'' :: rest) =
      consOut ['\''] (rewriteCommonAux isPg rest.length .normal next rest) := by
    rw [rewriteCommonAux_cons, hstep2]
    dsimp only
    rw [if_neg (by decide)]
  have hrw1 : rewriteCommonAux isPg ((litBody units ++ '\'' :: rest).length) .singleQuote next
      (litBody units ++ '\'' :: rest) =
      consOut (litBody units)
        (rewriteCommonAux isPg (('\'' :: rest).length) .singleQuote next ('\'' :: rest)) :=
    rewriteCommonAux_eats isPg heats ('\'' :: rest) next _ (by simp)
  rw [hform]
  constructor
  · rw [List.length_cons, countAux_cons, hstep1]
    dsimp only
    rw [hcount1, List.length_cons, hcount2]
    rfl
  · rw [List.length_cons, rewriteCommonAux_cons, hstep1]
    dsimp only
    rw [if_neg (by decide), hrw1, List.length_cons, hrw2, consOut_consOut, consOut_consOut]
    rfl

/-- C3: during placeholder compilation — in both the counting loop
(countAux) and the rewriting loop (rewriteCommonAux) — a marker
character inside a single-quoted literal (with doubled-quote escapes
and, for the backslash-escaping dialect, backslash escapes), inside a
double-quoted identifier, inside a line or block comment, or inside a
dollar-quoted region is never counted and never rewritten: each such
complete region contributes nothing to the marker count and is emitted
verbatim with the placeholder index untouched.  In particular the text
"note = ?-in-quotes AND id = ?" has exactly one normal-mode marker and
its postgres rewrite replaces only the marker outside the literal. -/
theorem c3_literals_comments_dollar_quotes_opaque :
    (∀ (isPg : Bool) (units : List LitUnit) (rest : List Char) (next : Nat),
      (∀ u ∈ units, goodUnit (!isPg) u = true) → ¬ rest.head? = some '\'' →
      countAux (!isPg) ((('\'' :: (litBody units ++ ['\''])) ++ rest).length) .normal
          (('\'' :: (litBody units ++ ['\''])) ++ rest) =
        countAux (!isPg) rest.length .normal rest ∧
      rewriteCommonAux isPg ((('\'' :: (litBody units ++ ['\''])) ++ rest).length) .normal
          next (('\'' :: (litBody units ++ ['\''])) ++ rest) =
        consOut ('\'' :: (litBody units ++ ['\'']))
          (rewriteCommonAux isPg rest.length .normal next rest)) ∧
    (∀ (isPg : Bool) (body rest : List Char) (next : Nat), '"' ∉ body →
      countAux (!isPg) ((('"' :: (body ++ ['"'])) ++ rest).length) .normal
          (('"' :: (body ++ ['"'])) ++ rest) =
        countAux (!isPg) rest.length .normal rest ∧
      rewriteCommonAux isPg ((('"' :: (body ++ ['"'])) ++ rest).length) .normal next
          (('"' :: (body ++ ['"'])) ++ rest) =
        consOut ('"' :: (body ++ ['"']))
          (rewriteCommonAux isPg rest.length .normal next rest)) ∧
    (∀ (isPg : Bool) (body rest : List Char) (next : Nat), '\n' ∉ body →
      countAux (!isPg) ((('-' :: '-' :: (body ++ ['\n'])) ++ rest).length) .normal
          (('-' :: '-' :: (body ++ ['\n'])) ++ rest) =
        countAux (!isPg) rest.length .normal rest ∧
      rewriteCommonAux isPg ((('-' :: '-' :: (body ++ ['\n'])) ++ rest).length) .normal next
          (('-' :: '-' :: (body ++ ['\n'])) ++ rest) =
        consOut ('-' :: '-' :: (body ++ ['\n']))
          (rewriteCommonAux isPg rest.length .normal next rest)) ∧
    (∀ (isPg : Bool) (body rest : List Char) (next : Nat), ¬ ['*', '/'] <:+: body →
      countAux (!isPg) ((('/' :: '*' :: (body ++ ['*', '/'])) ++ rest).length) .normal
          (('/' :: '*' :: (body ++ ['*', '/'])) ++ rest) =
        countAux (!isPg) rest.length .normal rest ∧
      rewriteCommonAux isPg ((('/' :: '*' :: (body ++ ['*', '/'])) ++ rest).length) .normal
          next (('/' :: '*' :: (body ++ ['*', '/'])) ++ rest) =
        consOut ('/' :: '*' :: (body ++ ['*', '/']))
          (rewriteCommonAux isPg rest.length .normal next rest)) ∧
    (∀ (isPg : Bool) (tag body rest : List Char) (next : Nat),
      tag.all isTagChar = true → '$' ∉ body →
      countAux (!isPg)
          (((('$' :: (tag ++ ['$'])) ++ (body ++ ('$' :: (tag ++ ['$'])))) ++ rest).length)
          .normal ((('$' :: (tag ++ ['$'])) ++ (body ++ ('$' :: (tag ++ ['$'])))) ++ rest) =
        countAux (!isPg) rest.length .normal rest ∧
      rewriteCommonAux isPg
          (((('$' :: (tag ++ ['$'])) ++ (body ++ ('$' :: (tag ++ ['$'])))) ++ rest).length)
          .normal next ((('$' :: (tag ++ ['$'])) ++ (body ++ ('$' :: (tag ++ ['$'])))) ++ rest) =
        consOut (('$' :: (tag ++ ['$'])) ++ (body ++ ('$' :: (tag ++ ['$']))))
          (rewriteCommonAux isPg rest.length .normal next rest)) ∧
    (countQuestionPlaceholders ("note = '?' AND id = ?").data false = 1 ∧
      rewritePostgresQuestionPlaceholders ("note = '?' AND id = ?").data 1 false =
        .ok (("note = '?' AND id = $1").data, 2)) :=
  ⟨fun isPg units rest next hunits hrest => sq_skip isPg units rest next hunits hrest,
   fun isPg body rest next hb =>
     region_skip isPg ('"' :: (body ++ ['"'])) rest next (dq_full (!isPg) body hb),
   fun isPg body rest next hb =>
     region_skip isPg ('-' :: '-' :: (body ++ ['\n'])) rest next (lc_full (!isPg) body hb),
   fun isPg body rest next hb =>
     region_skip isPg ('/' :: '*' :: (body ++ ['*', '/'])) rest next (bc_full (!isPg) body hb),
   fun isPg tag body rest next htag hb =>
     region_skip isPg (('$' :: (tag ++ ['$'])) ++ (body ++ ('$' :: (tag ++ ['$'])))) rest next
       (dollar_full (!isPg) tag body htag hb),
   rfl, rfl⟩

/-- Witness for C3: a marker inside a one-character single-quoted
literal is not counted and not rewritten, while the marker after the
literal still is. -/
theorem c3_witness :
    countAux false ((('\'' :: (litBody [LitUnit.plain '?'] ++ ['\''])) ++ ['?']).length)
        .normal (('\'' :: (litBody [LitUnit.plain '?'] ++ ['\''])) ++ ['?']) =
      countAux false (['?'] : List Char).length .normal ['?'] ∧
    rewriteCommonAux true ((('\'' :: (litBody [LitUnit.plain '?'] ++ ['\''])) ++ ['?']).length)
        .normal 5 (('\'' :: (litBody [LitUnit.plain '?'] ++ ['\''])) ++ ['?']) =
      consOut ('\'' :: (litBody [LitUnit.plain '?'] ++ ['\'']))
        (rewriteCommonAux true (['?'] : List Char).length .normal 5 ['?']) :=
  c3_literals_comments_dollar_quotes_opaque.1 true [LitUnit.plain '?'] ['?'] 5
    (by decide) (by decide)

/-- Normal mode: an unprotected marker is counted. -/
lemma scanStep_normal_marker (esc : Bool) (s : List Char) :
    scanStep esc .normal ('?' :: s) = (.normal, 1, ['?'], s) := rfl

/-- The slow postgres loop stops with the jsonb-conflict error as soon
as it counts a marker whose following text triggers the adjacency
check. -/
lemma rewriteCommonAux_marker_conflict (rest : List Char) (next : Nat) (e : String)
    (hconf : jsonbConflictError rest = some e) :
    rewriteCommonAux true (rest.length + 1) .normal next ('?' :: rest) = .error e := by
  rw [rewriteCommonAux_cons, scanStep_normal_marker]
  dsimp only
  rw [hconf]
  rfl

/-- C8: for the postgres dialect the jsonb-operator adjacency check
lives only on the character-by-character rewriting path.  A fragment
that is not "simple" (it contains a quote, comment or dollar byte)
takes that path; there, a normal-mode marker whose next non-space
character is a pipe or ampersand fails fast with the named
jsonb-array-operator error, and one followed by a quote fails with the
named jsonb-exists error, instead of producing rewritten SQL.  The
fast path taken for simple fragments performs no such check (see the
counterexample). -/
theorem c8_jsonb_conflict_only_on_slow_path :
    (∀ (sql : List Char) (idx : Nat), isSimpleSQL sql = false →
      rewritePlaceholdersCommon sql idx true =
        rewriteCommonAux true sql.length .normal idx sql) ∧
    (∀ (pre rest : List Char) (next : Nat) (e : String),
      ScanEats false .normal pre .normal → jsonbConflictError rest = some e →
      rewriteCommonAux true ((pre ++ '?' :: rest).length) .normal next (pre ++ '?' :: rest) =
        .error e) ∧
    (∀ l : List Char,
      jsonbConflictError ('|' :: l) = some errJsonbArray ∧
      jsonbConflictError ('&' :: l) = some errJsonbArray ∧
      jsonbConflictError ('\'' :: l) = some errJsonbExists ∧
      jsonbConflictError ('"' :: l) = some errJsonbExists) ∧
    rewritePostgresQuestionPlaceholders ("data ? 'k'").data 1 false =
      .error errJsonbExists := by
  refine ⟨?_, ?_, ?_, rfl⟩
  · intro sql idx hsimple
    unfold rewritePlaceholdersCommon
    rw [if_neg (fun h => h.2 rfl),
      if_neg (fun h => by rw [hsimple] at h; exact absurd h.1 (by decide))]
  · intro pre rest next e hpre hconf
    have h1 := rewriteCommonAux_eats true hpre ('?' :: rest) next
      ((pre ++ '?' :: rest).length) (by simp)
    rw [h1, List.length_cons, rewriteCommonAux_marker_conflict rest next e hconf]
    rfl
  · intro l
    exact ⟨rfl, rfl, rfl, rfl⟩

/-- Witness for C8: a marker directly followed by a pipe makes the slow
loop fail with the array-operator error, and a non-simple fragment is
routed to that loop. -/
theorem c8_witness :
    rewriteCommonAux true (('?' :: ['|']).length) .normal 3 ('?' :: ['|']) =
      .error errJsonbArray ∧
    rewritePlaceholdersCommon ['\''] 1 true =
      rewriteCommonAux true (['\''] : List Char).length .normal 1 ['\''] :=
  ⟨c8_jsonb_conflict_only_on_slow_path.2.1 [] ['|'] 3 errJsonbArray
      (ScanEats.refl .normal) rfl,
   c8_jsonb_conflict_only_on_slow_path.1 ['\''] 1 (by decide)⟩

/-- Counterexample for C8: the fragment "a ?| b" contains the jsonb
array-operator form, yet — being "simple" (no quote, comment or dollar
byte) — it is rewritten by the fast path with no adjacency check:
appendExpr succeeds and produces "a $1| b" instead of the named
error. -/
theorem c8_counterexample :
    appendExpr (newArgBuilder Dialect.postgres) ⟨("a ?| b").data, [GoVal.atom 1]⟩ =
      .ok ⟨Dialect.postgres, 2, [GoVal.atom 1], ("a $1| b").data⟩ ∧
    jsonbConflictError ("| b").data = some errJsonbArray :=
  ⟨rfl, rfl⟩

end Corm
